import Mathlib

/-!
A shallow embedding of the layer kernels of `unveiler` (src/unveiler/layers.py)
together with theorems checking the specification's claims about them.

Tensors are modelled as total index functions (`Nat → Nat → Nat → α`) whose
extent is tracked separately, numpy float32 arithmetic is modelled over `ℚ`
(`ℝ` for batch normalization, whose kernel divides by a square root), and the
imperative loop nests of the source are modelled as left folds over the lists
of visited indices, with in-place writes modelled as pointwise function
updates.  Activation functions are external collaborators of the code under
study and are modelled as an abstract elementwise function field.
-/

/-- A rank-3 buffer of `α` values, indexed (channel, row, column). -/
def T3 (α : Type) : Type := Nat → Nat → Nat → α

/-- Rank-3 rational tensor, the model of a float32 numpy array of rank 3. -/
abbrev Tensor3 : Type := T3 ℚ

/-- Rank-2 rational tensor. -/
abbrev Tensor2 : Type := Nat → Nat → ℚ

/-- The index buffer of MaxPooling2D: a (row, col) pair per output cell. -/
abbrev ITensor : Type := T3 (Nat × Nat)

/-- The rank-4 weight tensor of Conv2D, indexed (kh, kw, in_chan, out_chan). -/
abbrev W4 : Type := Nat → Nat → Nat → Nat → ℚ

/-- The list of indices visited by Python `range(0, stop, step)` (for a
possibly negative `stop`, as produced by `x.shape[1] - kernel + 1`). -/
def pyRange (stop : Int) (step : Nat) : List Nat :=
  (List.range ((stop + step - 1) / step).toNat).map fun t => t * step

/-- The row-major list of all indices of a `c × h × w` extent, i.e. the
iteration order of three nested Python `for ... in range(...)` loops. -/
def idxTriples (c h w : Nat) : List (Nat × Nat × Nat) :=
  (List.range c).flatMap fun i =>
    (List.range h).flatMap fun j =>
      (List.range w).map fun k => (i, j, k)

/-- In-place overwrite of one cell of a buffer (`buf[c] = v`). -/
def writeSetG {α : Type} (buf : T3 α) (c : Nat × Nat × Nat) (v : α) : T3 α :=
  fun i p q => if i = c.1 ∧ p = c.2.1 ∧ q = c.2.2 then v else buf i p q

/-- In-place accumulation into one cell of a buffer (`buf[c] += v`). -/
def writeAdd (buf : Tensor3) (c : Nat × Nat × Nat) (v : ℚ) : Tensor3 :=
  fun i p q => if i = c.1 ∧ p = c.2.1 ∧ q = c.2.2 then buf i p q + v else buf i p q

/-- The directory of the `unveiler` error signals.  The factory raises a
`ValueError` naming the unsupported type; invoking a missing `deconvolve`
method surfaces as an attribute error naming the kernel kind. -/
inductive LayerError where
  | unsupportedLayerKind (typeName : String)
  | unsupportedOperation (kindName : String)
  deriving DecidableEq

/-- `(x[j, k:k+kh, l:l+kw] * self.w[:, :, j, i]).sum()`: the elementwise
product of a kernel-sized window of `x` at corner `(k, l)` with the kernel
slice for input channel `j` and output channel `i`, summed. -/
def convWindowSum (x : Tensor3) (w : W4) (j k l i kh kw : Nat) : ℚ :=
  ∑ a in Finset.range kh, ∑ b in Finset.range kw, x j (k + a) (l + b) * w a b j i

/-- The Conv2D kernel state: declared input/output extents, the weight and
bias tensors, kernel size, strides, the resolved activation, and the two
owned buffers (`output`, `deconv_output`). -/
structure Conv2DLayer where
  name : String
  inC : Nat
  inH : Nat
  inW : Nat
  outC : Nat
  outH : Nat
  outW : Nat
  w : W4
  b : Nat → ℚ
  kh : Nat
  kw : Nat
  sh : Nat
  sw : Nat
  act : ℚ → ℚ
  output : Tensor3
  deconvOut : Tensor3

/-- `self.output[i, :, :] += self.b[i]`: add the channel bias to a whole
plane of the buffer. -/
def convBias (buf : Tensor3) (i : Nat) (bi : ℚ) : Tensor3 :=
  fun i2 p q => if i2 = i then buf i2 p q + bi else buf i2 p q

/-- The innermost Conv2D forward loop (over window column positions `l`). -/
def convLoopL (L : Conv2DLayer) (x : Tensor3) (i j k : Nat) (buf : Tensor3)
    (lw : List Nat) : Tensor3 :=
  lw.foldl
    (fun buf l =>
      writeAdd buf (i, k / L.sh, l / L.sw)
        (convWindowSum x L.w j k l i L.kh L.kw))
    buf

/-- The Conv2D forward loop over window row positions `k`. -/
def convLoopK (L : Conv2DLayer) (x : Tensor3) (i j : Nat) (buf : Tensor3)
    (lh lw : List Nat) : Tensor3 :=
  lh.foldl (fun buf k => convLoopL L x i j k buf lw) buf

/-- The Conv2D forward loop over input channels `j`. -/
def convLoopJ (L : Conv2DLayer) (x : Tensor3) (xC i : Nat) (buf : Tensor3)
    (lh lw : List Nat) : Tensor3 :=
  (List.range xC).foldl (fun buf j => convLoopK L x i j buf lh lw) buf

/-- The whole Conv2D forward loop nest: zero the output buffer, loop over
output channels `i` accumulating every input channel's window products, add
the channel bias after each channel's accumulation. -/
def Conv2D.ffLoops (L : Conv2DLayer) (xC : Nat) (x : Tensor3)
    (lh lw : List Nat) : Tensor3 :=
  (List.range L.outC).foldl
    (fun buf i => convBias (convLoopJ L x xC i buf lh lw) i (L.b i))
    fun _ _ _ => 0

/-- `Conv2D.feedforward`: run the loop nest over the window positions
`range(0, x.shape[d] - kernel_size[d] + 1, strides[d])` derived from the
input's actual extent, then apply the activation to the whole buffer and
store the result in `output`. -/
def Conv2D.feedforward (L : Conv2DLayer) (xC xH xW : Nat) (x : Tensor3) :
    Tensor3 × Conv2DLayer :=
  let out : Tensor3 := fun i p q =>
    L.act (Conv2D.ffLoops L xC x
      (pyRange ((xH : Int) - L.kh + 1) L.sh)
      (pyRange ((xW : Int) - L.kw + 1) L.sw) i p q)
  (out, { L with output := out })

/-- `self.deconv_output[j, k:k+kh, l:l+kw] += M`: accumulate a kernel-sized
matrix onto a window of the buffer, where `f a b` is the matrix entry at
window-local position `(a, b)`. -/
def sliceAddT (buf : Tensor3) (j k l kh kw : Nat) (f : Nat → Nat → ℚ) :
    Tensor3 :=
  fun j2 r c =>
    if j2 = j ∧ k ≤ r ∧ r < k + kh ∧ l ≤ c ∧ c < l + kw
    then buf j2 r c + f (r - k) (c - l) else buf j2 r c

/-- The innermost Conv2D deconvolution loop (over window columns `l`):
`deconv_output[j, k:k+kh, l:l+kw] += x[i, k//sh, l//sw] * w[:, :, j, i].transpose()`. -/
def dcLoopL (L : Conv2DLayer) (xAct : Tensor3) (w : W4) (i j k : Nat)
    (buf : Tensor3) (lw : List Nat) : Tensor3 :=
  lw.foldl
    (fun buf l =>
      sliceAddT buf j k l L.kh L.kw fun a b =>
        xAct i (k / L.sh) (l / L.sw) * w b a j i)
    buf

/-- The Conv2D deconvolution loop over window rows `k`. -/
def dcLoopK (L : Conv2DLayer) (xAct : Tensor3) (w : W4) (i j : Nat)
    (buf : Tensor3) (lh lw : List Nat) : Tensor3 :=
  lh.foldl (fun buf k => dcLoopL L xAct w i j k buf lw) buf

/-- The Conv2D deconvolution loop over result channels `j`. -/
def dcLoopJ (L : Conv2DLayer) (xAct : Tensor3) (w : W4) (i : Nat)
    (buf : Tensor3) (lh lw : List Nat) : Tensor3 :=
  (List.range L.inC).foldl (fun buf j => dcLoopK L xAct w i j buf lh lw) buf

/-- The Conv2D deconvolution loop nest: zero the scratch buffer, then for
every channel `i` of (activated) `x`, every channel `j` of the result and
every window position, add `x[i, k//sh, l//sw] * w[:, :, j, i].transpose()`
onto the window of `deconv_output` at that position. -/
def Conv2D.dcLoops (L : Conv2DLayer) (xc : Nat) (xAct : Tensor3) (w : W4)
    (lh lw : List Nat) : Tensor3 :=
  (List.range xc).foldl
    (fun buf i => dcLoopJ L xAct w i buf lh lw)
    fun _ _ _ => 0

/-- `Conv2D.deconvolve(x=None, w=None)`: default `x` to the layer's cached
forward output and `w` to the layer's own weights, apply the activation to
`x`, run the transposed-kernel accumulation over the window grid of the
declared forward-input extent, and cache the result in `deconv_output`. -/
def Conv2D.deconvolve (L : Conv2DLayer) (xOpt : Option (Nat × Tensor3))
    (wOpt : Option W4) : Tensor3 × Conv2DLayer :=
  let out := Conv2D.dcLoops L (xOpt.getD (L.outC, L.output)).1
    (fun i p q => L.act ((xOpt.getD (L.outC, L.output)).2 i p q))
    (wOpt.getD L.w)
    (pyRange ((L.inH : Int) - L.kh + 1) L.sh)
    (pyRange ((L.inW : Int) - L.kw + 1) L.sw)
  (out, { L with deconvOut := out })

/-- The MaxPooling2D kernel state: declared extents, pool size, strides and
the owned buffers (`output`, `indices`, `deconvolutional_output`). -/
structure MPLayer where
  name : String
  inC : Nat
  inH : Nat
  inW : Nat
  outC : Nat
  outH : Nat
  outW : Nat
  ph : Nat
  pw : Nat
  sh : Nat
  sw : Nat
  output : Tensor3
  indices : ITensor
  deconvOut : Tensor3

/-- Row-major scan of a list of (coordinate, value) pairs keeping the first
maximum: the semantics of `slice.max()` together with
`np.unravel_index(slice.argmax(), slice.shape)`. -/
def argmaxScan (vals : List ((Nat × Nat) × ℚ)) : (Nat × Nat) × ℚ :=
  match vals with
  | [] => ((0, 0), 0)
  | v :: rest => rest.foldl (fun best p => if best.2 < p.2 then p else best) v

/-- The window-local coordinates of a `rows × cols` slice in row-major
order. -/
def sliceLocs (rows cols : Nat) : List (Nat × Nat) :=
  (List.range rows).flatMap fun a => (List.range cols).map fun b => (a, b)

/-- The scan of the pool window of `x` at corner `(ih, iw)` of channel `n`;
the slice `x[n, ih:ih+ph, iw:iw+pw]` is numpy-clamped to the input extent. -/
def mpWindowScan (x : Tensor3) (ph pw xH xW n ih iw : Nat) :
    (Nat × Nat) × ℚ :=
  argmaxScan ((sliceLocs (min ph (xH - ih)) (min pw (xW - iw))).map
    fun ab => (ab, x n (ih + ab.1) (iw + ab.2)))

/-- The output cell written for the window at `pos`:
`(idx_in, idx_ih // pool_h, idx_iw // pool_w)`. -/
def mpCell (ph pw : Nat) (pos : Nat × Nat × Nat) : Nat × Nat × Nat :=
  (pos.1, pos.2.1 / ph, pos.2.2 / pw)

/-- The window maximum written by the window at `pos`. -/
def mpMaxVal (x : Tensor3) (ph pw xH xW : Nat) (pos : Nat × Nat × Nat) : ℚ :=
  (mpWindowScan x ph pw xH xW pos.1 pos.2.1 pos.2.2).2

/-- The absolute argmax coordinates recorded for the window at `pos`: the
window-local argmax offset by the window corner. -/
def mpMaxIdx (x : Tensor3) (ph pw xH xW : Nat) (pos : Nat × Nat × Nat) :
    Nat × Nat :=
  ((mpWindowScan x ph pw xH xW pos.1 pos.2.1 pos.2.2).1.1 + pos.2.1,
   (mpWindowScan x ph pw xH xW pos.1 pos.2.1 pos.2.2).1.2 + pos.2.2)

/-- The window corners visited by `MaxPooling2D.feedforward`:
`range(x.shape[0])` × `range(0, x.shape[1]//ph*ph, sh)` ×
`range(0, x.shape[2]//pw*pw, sw)` in loop order. -/
def mpPositions (xC xH xW ph pw sh sw : Nat) : List (Nat × Nat × Nat) :=
  (List.range xC).flatMap fun n =>
    (pyRange ((xH / ph * ph : Nat) : Int) sh).flatMap fun ih =>
      (pyRange ((xW / pw * pw : Nat) : Int) sw).map fun iw => (n, ih, iw)

/-- `MaxPooling2D.feedforward`: for every visited window corner, overwrite
the output cell with the window maximum and the indices cell with the
absolute argmax coordinates.  Neither buffer is cleared first. -/
def MaxPool2D.feedforward (L : MPLayer) (xC xH xW : Nat) (x : Tensor3) :
    Tensor3 × MPLayer :=
  let s := (mpPositions xC xH xW L.ph L.pw L.sh L.sw).foldl
    (fun s pos =>
      (writeSetG s.1 (mpCell L.ph L.pw pos) (mpMaxVal x L.ph L.pw xH xW pos),
       writeSetG s.2 (mpCell L.ph L.pw pos) (mpMaxIdx x L.ph L.pw xH xW pos)))
    (L.output, L.indices)
  (s.1, { L with output := s.1, indices := s.2 })

/-- The write coordinate of `MaxPooling2D.deconvolve` for the cell `pos` of
`x`: the recorded indices at `pos`. -/
def mpDecCell (ind : ITensor) (pos : Nat × Nat × Nat) : Nat × Nat × Nat :=
  (pos.1, (ind pos.1 pos.2.1 pos.2.2).1, (ind pos.1 pos.2.1 pos.2.2).2)

/-- `MaxPooling2D.deconvolve(x)`: for every cell of `x` in loop order, write
the cell's value into `deconvolutional_output` at the recorded indices; the
buffer is not cleared first. -/
def MaxPool2D.deconvolve (L : MPLayer) (xC xH xW : Nat) (x : Tensor3) :
    Tensor3 × MPLayer :=
  let out := (idxTriples xC xH xW).foldl
    (fun b pos =>
      writeSetG b (mpDecCell L.indices pos) (x pos.1 pos.2.1 pos.2.2))
    L.deconvOut
  (out, { L with deconvOut := out })

/-- The maximum of the full (unclamped) `ph × pw` window of `x` at corner
`(ih, iw)` — the value the specification expects a pool output cell to
hold. -/
def fullWindowMax (x : Tensor3) (n ih iw ph pw : Nat) : ℚ :=
  (argmaxScan ((sliceLocs ph pw).map
    fun ab => (ab, x n (ih + ab.1) (iw + ab.2)))).2

/-- The absolute coordinates of the (first, row-major) maximum of the full
`ph × pw` window of `x` at corner `(ih, iw)`. -/
def fullWindowArg (x : Tensor3) (n ih iw ph pw : Nat) : Nat × Nat :=
  ((argmaxScan ((sliceLocs ph pw).map
    fun ab => (ab, x n (ih + ab.1) (iw + ab.2)))).1.1 + ih,
   (argmaxScan ((sliceLocs ph pw).map
    fun ab => (ab, x n (ih + ab.1) (iw + ab.2)))).1.2 + iw)

/-- A call made on a MaxPooling2D layer instance: a feedforward on an
input-shaped tensor or a deconvolve on an output-shaped tensor. -/
inductive MPCall where
  | ff (x : Tensor3)
  | dec (x : Tensor3)

/-- Perform one call on a MaxPooling2D instance at its declared extents and
keep the updated instance. -/
def MPLayer.applyCall (L : MPLayer) (c : MPCall) : MPLayer :=
  match c with
  | .ff x => (MaxPool2D.feedforward L L.inC L.inH L.inW x).2
  | .dec x => (MaxPool2D.deconvolve L L.outC L.outH L.outW x).2

/-- Perform a sequence of calls on a MaxPooling2D instance. -/
def MPLayer.runCalls (L : MPLayer) (cs : List MPCall) : MPLayer :=
  cs.foldl MPLayer.applyCall L

/-- Invariant: every output-buffer cell never written by the feedforward
loop holds zero (true of a freshly constructed layer and preserved by every
call, since feedforward always writes the same cell set). -/
def mpCleanOutput (L : MPLayer) : Prop :=
  ∀ a r c,
    (∀ pos ∈ mpPositions L.inC L.inH L.inW L.ph L.pw L.sh L.sw,
      mpCell L.ph L.pw pos ≠ (a, r, c)) →
    L.output a r c = 0

/-- The Dense kernel state. -/
structure DenseLayer where
  name : String
  inF : Nat
  outF : Nat
  w : Nat → Nat → ℚ
  b : Nat → ℚ
  act : ℚ → ℚ
  output : Tensor2

/-- `Dense.feedforward`: `activation(x.dot(w) + b)`, overwriting the whole
output buffer. -/
def Dense.feedforward (L : DenseLayer) (x : Tensor2) : Tensor2 × DenseLayer :=
  let out : Tensor2 := fun r o =>
    L.act ((∑ i in Finset.range L.inF, x r i * L.w i o) + L.b o)
  (out, { L with output := out })

/-- The Flatten kernel state. -/
structure FlattenLayer where
  name : String
  inC : Nat
  inH : Nat
  inW : Nat
  output : Tensor2

/-- `Flatten.feedforward`: `x.flatten().reshape((1, -1))`, row-major. -/
def Flatten.feedforward (L : FlattenLayer) (xH xW : Nat) (x : Tensor3) :
    Tensor2 × FlattenLayer :=
  let out : Tensor2 := fun _r t =>
    x (t / (xH * xW)) (t % (xH * xW) / xW) (t % xW)
  (out, { L with output := out })

/-- Rank-3 real tensor (batch normalization divides by a square root, which
leaves the rationals). -/
abbrev RTensor3 : Type := T3 ℝ

/-- The BatchNormalization kernel state: gamma, beta, running mean, running
variance (one scalar per channel), epsilon, and the output buffer. -/
structure BatchNormLayer where
  name : String
  g : Nat → ℝ
  b : Nat → ℝ
  m : Nat → ℝ
  v : Nat → ℝ
  e : ℝ
  output : RTensor3

/-- `BatchNormalization.feedforward`: per channel `i`,
`output[i] = g[i] * (x[i] - m[i]) / sqrt(v[i] + e) + b[i]`. -/
noncomputable def BatchNorm.feedforward (L : BatchNormLayer) (xC : Nat)
    (x : RTensor3) : RTensor3 × BatchNormLayer :=
  let out := (List.range xC).foldl
    (fun buf i => fun i2 p q =>
      if i2 = i
      then L.g i * (x i p q - L.m i) / Real.sqrt (L.v i + L.e) + L.b i
      else buf i2 p q)
    L.output
  (out, { L with output := out })

/-- The Dropout kernel state. -/
structure DropoutLayer where
  name : String
  output : Tensor3

/-- `Dropout.feedforward`: identity copy into the output buffer. -/
def Dropout.feedforward (L : DropoutLayer) (x : Tensor3) :
    Tensor3 × DropoutLayer :=
  (x, { L with output := x })

/-- The fields of a source Dense layer description read by construction. -/
structure DenseDesc where
  name : String
  inF : Nat
  outF : Nat
  w : Nat → Nat → ℚ
  b : Nat → ℚ
  act : ℚ → ℚ

/-- The fields of a source Conv2D layer description read by construction. -/
structure Conv2DDesc where
  name : String
  inC : Nat
  inH : Nat
  inW : Nat
  outC : Nat
  outH : Nat
  outW : Nat
  w : W4
  b : Nat → ℚ
  act : ℚ → ℚ
  kh : Nat
  kw : Nat
  sh : Nat
  sw : Nat

/-- The fields of a source MaxPooling2D layer description. -/
structure MaxPool2DDesc where
  name : String
  inC : Nat
  inH : Nat
  inW : Nat
  outC : Nat
  outH : Nat
  outW : Nat
  ph : Nat
  pw : Nat
  sh : Nat
  sw : Nat

/-- The fields of a source Flatten layer description. -/
structure FlattenDesc where
  name : String
  inC : Nat
  inH : Nat
  inW : Nat

/-- The fields of a source BatchNormalization layer description. -/
structure BatchNormDesc where
  name : String
  g : Nat → ℝ
  b : Nat → ℝ
  m : Nat → ℝ
  v : Nat → ℝ
  e : ℝ

/-- The fields of a source Dropout layer description. -/
structure DropoutDesc where
  name : String

/-- A source layer description, dispatched on its declared type (the
`isinstance` chain of `Layer.factory`). -/
inductive KerasLayer where
  | dense (d : DenseDesc)
  | conv2d (d : Conv2DDesc)
  | maxPooling2d (d : MaxPool2DDesc)
  | flatten (d : FlattenDesc)
  | batchNormalization (d : BatchNormDesc)
  | dropout (d : DropoutDesc)
  | inputLayer (name : String)
  | other (typeName : String)

/-- Construct a Dense kernel: capture weights and allocate the zero output
buffer. -/
def mkDense (d : DenseDesc) : DenseLayer :=
  { name := d.name, inF := d.inF, outF := d.outF, w := d.w, b := d.b
    act := d.act, output := fun _ _ => 0 }

/-- Construct a Conv2D kernel: capture weights, kernel size, strides and
activation; allocate zero `output` and `deconv_output` buffers. -/
def mkConv2D (d : Conv2DDesc) : Conv2DLayer :=
  { name := d.name, inC := d.inC, inH := d.inH, inW := d.inW
    outC := d.outC, outH := d.outH, outW := d.outW
    w := d.w, b := d.b, kh := d.kh, kw := d.kw, sh := d.sh, sw := d.sw
    act := d.act
    output := fun _ _ _ => 0, deconvOut := fun _ _ _ => 0 }

/-- Construct a MaxPooling2D kernel: capture pool size and strides; allocate
zero `output`, `indices` and `deconvolutional_output` buffers. -/
def mkMaxPool2D (d : MaxPool2DDesc) : MPLayer :=
  { name := d.name, inC := d.inC, inH := d.inH, inW := d.inW
    outC := d.outC, outH := d.outH, outW := d.outW
    ph := d.ph, pw := d.pw, sh := d.sh, sw := d.sw
    output := fun _ _ _ => 0, indices := fun _ _ _ => (0, 0)
    deconvOut := fun _ _ _ => 0 }

/-- Construct a Flatten kernel. -/
def mkFlatten (d : FlattenDesc) : FlattenLayer :=
  { name := d.name, inC := d.inC, inH := d.inH, inW := d.inW
    output := fun _ _ => 0 }

/-- Construct a BatchNormalization kernel: capture gamma, beta, mean,
variance and epsilon. -/
def mkBatchNorm (d : BatchNormDesc) : BatchNormLayer :=
  { name := d.name, g := d.g, b := d.b, m := d.m, v := d.v, e := d.e
    output := fun _ _ _ => 0 }

/-- Construct a Dropout kernel. -/
def mkDropout (d : DropoutDesc) : DropoutLayer :=
  { name := d.name, output := fun _ _ _ => 0 }

/-- A constructed layer kernel of any of the six supported kinds. -/
inductive Kernel where
  | dense (L : DenseLayer)
  | conv2d (L : Conv2DLayer)
  | maxPooling2d (L : MPLayer)
  | flatten (L : FlattenLayer)
  | batchNormalization (L : BatchNormLayer)
  | dropout (L : DropoutLayer)

/-- `Layer.factory`: dispatch a source layer description to its kernel
constructor paired with its category tag; an input placeholder produces no
kernel; any other type raises `ValueError('Layer ... is not supported')`. -/
def Layer.factory : KerasLayer → Except LayerError (Option (Kernel × String))
  | .dense d => .ok (some (.dense (mkDense d), "other"))
  | .conv2d d => .ok (some (.conv2d (mkConv2D d), "conv"))
  | .maxPooling2d d => .ok (some (.maxPooling2d (mkMaxPool2D d), "maxpool"))
  | .flatten d => .ok (some (.flatten (mkFlatten d), "other"))
  | .batchNormalization d => .ok (some (.batchNormalization (mkBatchNorm d), "other"))
  | .dropout d => .ok (some (.dropout (mkDropout d), "other"))
  | .inputLayer _ => .ok none
  | .other t => .error (.unsupportedLayerKind t)

/-- Invoking `deconvolve` on a kernel: Conv2D and MaxPooling2D define the
method; the other four kinds have no such attribute, so the call fails
before any computation. -/
def Kernel.deconvolve (k : Kernel)
    (xOpt : Option ((Nat × Nat × Nat) × Tensor3)) (wOpt : Option W4) :
    Except LayerError (Tensor3 × Kernel) :=
  match k with
  | .conv2d L =>
      let r := Conv2D.deconvolve L (xOpt.map fun s => (s.1.1, s.2)) wOpt
      .ok (r.1, .conv2d r.2)
  | .maxPooling2d L =>
      match xOpt with
      | some (s, x) =>
          let r := MaxPool2D.deconvolve L s.1 s.2.1 s.2.2 x
          .ok (r.1, .maxPooling2d r.2)
      | none => .error (.unsupportedOperation "MaxPooling2D")
  | .dense _ => .error (.unsupportedOperation "Dense")
  | .flatten _ => .error (.unsupportedOperation "Flatten")
  | .batchNormalization _ => .error (.unsupportedOperation "BatchNormalization")
  | .dropout _ => .error (.unsupportedOperation "Dropout")

/-- An all-ones rank-3 tensor, used as a concrete test input. -/
def qOne3 : Tensor3 := fun _ _ _ => 1

/-- A concrete 1-channel 2×2 Conv2D layer with 1×1 all-ones kernel, unit
stride, zero bias and identity activation. -/
def convLayerA : Conv2DLayer :=
  { name := "conv_a", inC := 1, inH := 2, inW := 2
    outC := 1, outH := 2, outW := 2
    w := fun _ _ _ _ => 1, b := fun _ => 0
    kh := 1, kw := 1, sh := 1, sw := 1
    act := fun v => v
    output := fun _ _ _ => 0, deconvOut := fun _ _ _ => 0 }

/-- A concrete Conv2D layer declaring 2 input channels of extent 3×3, with a
2×2 all-ones kernel, unit strides, zero bias and identity activation. -/
def convLayerB : Conv2DLayer :=
  { name := "conv_b", inC := 2, inH := 3, inW := 3
    outC := 1, outH := 2, outW := 2
    w := fun _ _ _ _ => 1, b := fun _ => 0
    kh := 2, kw := 2, sh := 1, sw := 1
    act := fun v => v
    output := fun _ _ _ => 0, deconvOut := fun _ _ _ => 0 }

/-- A concrete MaxPooling2D layer: 1 channel of extent 2×2, pool (2, 2),
strides (1, 1), declared output 1×1 (`(2-2)/1 + 1 = 1`). -/
def mpLayerA : MPLayer :=
  { name := "pool_a", inC := 1, inH := 2, inW := 2
    outC := 1, outH := 1, outW := 1
    ph := 2, pw := 2, sh := 1, sw := 1
    output := fun _ _ _ => 0, indices := fun _ _ _ => (0, 0)
    deconvOut := fun _ _ _ => 0 }

/-- A concrete MaxPooling2D layer: 1 channel of extent 2×2, pool (2, 2),
strides (2, 2), declared output 1×1. -/
def mpLayerB : MPLayer :=
  { name := "pool_b", inC := 1, inH := 2, inW := 2
    outC := 1, outH := 1, outW := 1
    ph := 2, pw := 2, sh := 2, sw := 2
    output := fun _ _ _ => 0, indices := fun _ _ _ => (0, 0)
    deconvOut := fun _ _ _ => 0 }

/-- A 2×2 input whose unique maximum 5 sits at position (0, 0). -/
def xPeak : Tensor3 := fun n p q => if n = 0 ∧ p = 0 ∧ q = 0 then 5 else 1

/-- A 2×2 input whose maximum sits at position (0, 0). -/
def yTopLeft : Tensor3 := fun _ p q => if p = 0 ∧ q = 0 then 1 else 0

/-- A 2×2 input whose maximum sits at position (1, 1). -/
def yBotRight : Tensor3 := fun _ p q => if p = 1 ∧ q = 1 then 1 else 0

/-- A constant output-shaped tensor of fives. -/
def xFive : Tensor3 := fun _ _ _ => 5

/-- A BatchNormalization layer with gamma 1, beta 0, mean 0, variance 1 and
epsilon 0 (the identity configuration). -/
def bnLayerA : BatchNormLayer :=
  { name := "bn_a", g := fun _ => 1, b := fun _ => 0, m := fun _ => 0
    v := fun _ => 1, e := 0, output := fun _ _ _ => 0 }

/-- An all-ones rank-3 real tensor. -/
def rOne3 : RTensor3 := fun _ _ _ => 1

lemma writeSetG_apply {α : Type} (buf : T3 α) (c : Nat × Nat × Nat) (v : α)
    (i p q : Nat) :
    writeSetG buf c v i p q = if (i, p, q) = c then v else buf i p q := by
  simp only [writeSetG, Prod.ext_iff]

lemma writeAdd_apply (buf : Tensor3) (c : Nat × Nat × Nat) (v : ℚ)
    (i p q : Nat) :
    writeAdd buf c v i p q = buf i p q + if (i, p, q) = c then v else 0 := by
  simp only [writeAdd, Prod.ext_iff]
  by_cases h : i = c.1 ∧ p = c.2.1 ∧ q = c.2.2 <;> simp [h]

/-- A loop whose body adds a buffer-independent quantity to the buffer
pointwise computes, at each cell, the sum of the per-iteration increments. -/
lemma foldl_add {κ : Type} (F : Tensor3 → κ → Tensor3) (G : κ → Tensor3)
    (hF : ∀ buf k i p q, F buf k i p q = buf i p q + G k i p q) :
    ∀ (ks : List κ) (buf : Tensor3) (i p q : Nat),
      ks.foldl F buf i p q = buf i p q + ((ks.map fun k => G k i p q).sum) := by
  intro ks
  induction ks with
  | nil => intro buf i p q; simp
  | cons k ks ih =>
      intro buf i p q
      rw [List.foldl_cons, List.map_cons, List.sum_cons, ih, hF]
      ring

/-- A loop of single-cell overwrites leaves untouched cells unchanged. -/
lemma foldl_writeSetG_none {κ α : Type} (cell : κ → Nat × Nat × Nat)
    (v : κ → α) (ks : List κ) (buf : T3 α) (i p q : Nat)
    (h : ∀ k ∈ ks, cell k ≠ (i, p, q)) :
    (ks.foldl (fun b k => writeSetG b (cell k) (v k)) buf) i p q =
      buf i p q := by
  induction ks generalizing buf with
  | nil => rfl
  | cons k ks ih =>
      rw [List.foldl_cons, ih _ fun k' hk' => h k' (List.mem_cons_of_mem _ hk')]
      rw [writeSetG_apply,
        if_neg fun he => h k (List.mem_cons_self k ks) he.symm]

/-- A loop of single-cell overwrites whose matching iterations all write the
same key ends with that key's value at the matched cell. -/
lemma foldl_writeSetG_unique {κ α : Type} (cell : κ → Nat × Nat × Nat)
    (v : κ → α) (ks : List κ) (buf : T3 α) (i p q : Nat) (k0 : κ)
    (hmem : k0 ∈ ks) (hc : cell k0 = (i, p, q))
    (huniq : ∀ k ∈ ks, cell k = (i, p, q) → k = k0) :
    (ks.foldl (fun b k => writeSetG b (cell k) (v k)) buf) i p q = v k0 := by
  induction ks generalizing buf with
  | nil => cases hmem
  | cons k ks ih =>
      rw [List.foldl_cons]
      by_cases htail : ∃ k' ∈ ks, cell k' = (i, p, q)
      · obtain ⟨k', hk', hck'⟩ := htail
        have hk0 : k0 ∈ ks := by
          have hkk : k' = k0 := huniq k' (List.mem_cons_of_mem _ hk') hck'
          rwa [← hkk]
        exact ih _ hk0 fun k hk h => huniq k (List.mem_cons_of_mem _ hk) h
      · push_neg at htail
        rw [foldl_writeSetG_none cell v ks _ i p q htail]
        have hk : k = k0 := by
          rcases List.mem_cons.mp hmem with h | h
          · exact h.symm
          · exact absurd hc (htail k0 h)
        rw [writeSetG_apply, hk, hc, if_pos rfl]

/-- If some iteration of an overwrite loop hits a cell, the final value of
that cell does not depend on the initial buffer. -/
lemma foldl_writeSetG_indep {κ α : Type} (cell : κ → Nat × Nat × Nat)
    (v : κ → α) (ks : List κ) (buf buf' : T3 α) (i p q : Nat)
    (h : ∃ k ∈ ks, cell k = (i, p, q)) :
    (ks.foldl (fun b k => writeSetG b (cell k) (v k)) buf) i p q =
      (ks.foldl (fun b k => writeSetG b (cell k) (v k)) buf') i p q := by
  induction ks generalizing buf buf' with
  | nil => obtain ⟨k, hk, _⟩ := h; cases hk
  | cons k ks ih =>
      rw [List.foldl_cons, List.foldl_cons]
      by_cases htail : ∃ k' ∈ ks, cell k' = (i, p, q)
      · exact ih _ _ htail
      · push_neg at htail
        rw [foldl_writeSetG_none cell v ks _ i p q htail,
          foldl_writeSetG_none cell v ks _ i p q htail]
        obtain ⟨k', hk', hck'⟩ := h
        have hk : cell k = (i, p, q) := by
          rcases List.mem_cons.mp hk' with h' | h'
          · rw [← h']; exact hck'
          · exact absurd hck' (htail k' h')
        rw [writeSetG_apply, writeSetG_apply, hk, if_pos rfl, if_pos rfl]

/-- A fold whose step acts independently on the two components of a pair is
the pair of the componentwise folds. -/
lemma foldl_pair {κ α β : Type} (F : α → κ → α) (G : β → κ → β)
    (ks : List κ) (a : α) (b : β) :
    ks.foldl (fun s k => (F s.1 k, G s.2 k)) (a, b) =
      (ks.foldl F a, ks.foldl G b) := by
  induction ks generalizing a b with
  | nil => rfl
  | cons k ks ih => rw [List.foldl_cons, List.foldl_cons, List.foldl_cons, ih]

lemma list_range_map_sum (n : Nat) (f : Nat → ℚ) :
    ((List.range n).map f).sum = ∑ t in Finset.range n, f t := by
  induction n with
  | zero => simp
  | succ n ih =>
      rw [List.range_succ, List.map_append, List.sum_append,
        Finset.sum_range_succ, ih]
      simp

/-- `pyRange` over a positive stop value `n + 1` visits the multiples of the
step below the stop: `⌊n / step⌋ + 1` of them. -/
lemma pyRange_succ (n s : Nat) (hs : 0 < s) :
    pyRange ((n : Int) + 1) s = (List.range (n / s + 1)).map fun t => t * s := by
  unfold pyRange
  congr 1
  have h1 : ((n : Int) + 1 + (s : Int) - 1) = ((n + s : Nat) : Int) := by
    push_cast; ring
  have h2 : ((n + s : Nat) : Int) / (s : Int) = (((n + s) / s : Nat) : Int) :=
    (Int.ofNat_ediv (n + s) s).symm
  rw [h1, h2, Int.toNat_ofNat]
  congr 1
  exact Nat.add_div_right n hs

lemma sliceAddT_apply (buf : Tensor3) (j k l kh kw : Nat) (f : Nat → Nat → ℚ)
    (a r c : Nat) :
    sliceAddT buf j k l kh kw f a r c =
      buf a r c + if a = j ∧ k ≤ r ∧ r < k + kh ∧ l ≤ c ∧ c < l + kw
        then f (r - k) (c - l) else 0 := by
  unfold sliceAddT
  by_cases h : a = j ∧ k ≤ r ∧ r < k + kh ∧ l ≤ c ∧ c < l + kw <;> simp [h]

lemma sum_ite_last (n q : Nat) (P : Prop) [Decidable P] (f : Nat → ℚ) :
    (∑ u in Finset.range n, if P ∧ q = u then f u else 0) =
      if P ∧ q < n then f q else 0 := by
  by_cases hP : P
  · simp only [hP, true_and]
    rw [Finset.sum_ite_eq]
    simp [Finset.mem_range]
  · simp [hP]

lemma sum_ite_fst (n p : Nat) (P : Prop) [Decidable P] (f : Nat → ℚ) :
    (∑ t in Finset.range n, if p = t ∧ P then f t else 0) =
      if p < n ∧ P then f p else 0 := by
  by_cases hP : P
  · simp only [hP, and_true]
    rw [Finset.sum_ite_eq]
    simp [Finset.mem_range]
  · simp [hP]

lemma sum_ite_const (n : Nat) (P : Prop) [Decidable P] (f : Nat → ℚ) :
    (∑ j in Finset.range n, if P then f j else 0) =
      if P then ∑ j in Finset.range n, f j else 0 := by
  by_cases h : P <;> simp [h]

lemma convLoopL_apply (L : Conv2DLayer) (x : Tensor3) (i j k : Nat)
    (buf : Tensor3) (lw : List Nat) (a b2 c : Nat) :
    convLoopL L x i j k buf lw a b2 c =
      buf a b2 c + (lw.map fun l =>
        if (a, b2, c) = (i, k / L.sh, l / L.sw)
        then convWindowSum x L.w j k l i L.kh L.kw else 0).sum := by
  unfold convLoopL
  exact foldl_add _ _
    (fun buf l a b2 c => writeAdd_apply buf (i, k / L.sh, l / L.sw)
      (convWindowSum x L.w j k l i L.kh L.kw) a b2 c) lw buf a b2 c

lemma convLoopK_apply (L : Conv2DLayer) (x : Tensor3) (i j : Nat)
    (buf : Tensor3) (lh lw : List Nat) (a b2 c : Nat) :
    convLoopK L x i j buf lh lw a b2 c =
      buf a b2 c + (lh.map fun k => (lw.map fun l =>
        if (a, b2, c) = (i, k / L.sh, l / L.sw)
        then convWindowSum x L.w j k l i L.kh L.kw else 0).sum).sum := by
  unfold convLoopK
  exact foldl_add _ _
    (fun buf k a b2 c => convLoopL_apply L x i j k buf lw a b2 c) lh buf a b2 c

lemma convLoopJ_apply (L : Conv2DLayer) (x : Tensor3) (xC i : Nat)
    (buf : Tensor3) (lh lw : List Nat) (a b2 c : Nat) :
    convLoopJ L x xC i buf lh lw a b2 c =
      buf a b2 c + ((List.range xC).map fun j => (lh.map fun k =>
        (lw.map fun l =>
          if (a, b2, c) = (i, k / L.sh, l / L.sw)
          then convWindowSum x L.w j k l i L.kh L.kw else 0).sum).sum).sum := by
  unfold convLoopJ
  exact foldl_add _ _
    (fun buf j a b2 c => convLoopK_apply L x i j buf lh lw a b2 c)
    (List.range xC) buf a b2 c

lemma convStepI_apply (L : Conv2DLayer) (x : Tensor3) (xC i : Nat)
    (buf : Tensor3) (lh lw : List Nat) (a b2 c : Nat) :
    convBias (convLoopJ L x xC i buf lh lw) i (L.b i) a b2 c =
      buf a b2 c + (((List.range xC).map fun j => (lh.map fun k =>
        (lw.map fun l =>
          if (a, b2, c) = (i, k / L.sh, l / L.sw)
          then convWindowSum x L.w j k l i L.kh L.kw else 0).sum).sum).sum +
        if a = i then L.b i else 0) := by
  unfold convBias
  by_cases h : a = i
  · rw [if_pos h, convLoopJ_apply, if_pos h]; ring
  · rw [if_neg h, convLoopJ_apply, if_neg h]; ring

lemma conv2d_ffLoops_raw (L : Conv2DLayer) (xC : Nat) (x : Tensor3)
    (lh lw : List Nat) (a b2 c : Nat) :
    Conv2D.ffLoops L xC x lh lw a b2 c =
      ((List.range L.outC).map fun i =>
        ((List.range xC).map fun j => (lh.map fun k =>
          (lw.map fun l =>
            if (a, b2, c) = (i, k / L.sh, l / L.sw)
            then convWindowSum x L.w j k l i L.kh L.kw else 0).sum).sum).sum +
          if a = i then L.b i else 0).sum := by
  unfold Conv2D.ffLoops
  have h := foldl_add _ _
    (fun buf i a b2 c => convStepI_apply L x xC i buf lh lw a b2 c)
    (List.range L.outC) (fun _ _ _ => 0) a b2 c
  rw [h]
  simp

lemma conv2d_ffLoops_apply (L : Conv2DLayer) (xC xH xW : Nat) (x : Tensor3)
    (hsh : 0 < L.sh) (hsw : 0 < L.sw) (hkh : L.kh ≤ xH) (hkw : L.kw ≤ xW)
    (i0 p q : Nat) (hi : i0 < L.outC) (hp : p < (xH - L.kh) / L.sh + 1)
    (hq : q < (xW - L.kw) / L.sw + 1) :
    Conv2D.ffLoops L xC x (pyRange ((xH : Int) - L.kh + 1) L.sh)
        (pyRange ((xW : Int) - L.kw + 1) L.sw) i0 p q =
      (∑ j in Finset.range xC,
        convWindowSum x L.w j (p * L.sh) (q * L.sw) i0 L.kh L.kw) + L.b i0 := by
  have hH : (xH : Int) - L.kh + 1 = ((xH - L.kh : Nat) : Int) + 1 := by
    rw [Nat.cast_sub hkh]
  have hW2 : (xW : Int) - L.kw + 1 = ((xW - L.kw : Nat) : Int) + 1 := by
    rw [Nat.cast_sub hkw]
  have hdivH : ∀ t : Nat, t * L.sh / L.sh = t := fun t => Nat.mul_div_left t hsh
  have hdivW : ∀ t : Nat, t * L.sw / L.sw = t := fun t => Nat.mul_div_left t hsw
  rw [hH, hW2, pyRange_succ _ _ hsh, pyRange_succ _ _ hsw, conv2d_ffLoops_raw]
  simp only [List.map_map, list_range_map_sum, Function.comp_apply,
    hdivH, hdivW, Prod.mk.injEq]
  have hbody : ∀ i ∈ Finset.range L.outC,
      ((∑ j in Finset.range xC, ∑ t in Finset.range ((xH - L.kh) / L.sh + 1),
        ∑ u in Finset.range ((xW - L.kw) / L.sw + 1),
          if i0 = i ∧ p = t ∧ q = u
          then convWindowSum x L.w j (t * L.sh) (u * L.sw) i L.kh L.kw
          else 0) + if i0 = i then L.b i else 0) =
        if i = i0
        then (∑ j in Finset.range xC,
          convWindowSum x L.w j (p * L.sh) (q * L.sw) i0 L.kh L.kw) + L.b i0
        else 0 := by
    intro i _
    by_cases h : i = i0
    · subst h
      simp only [eq_self_iff_true, true_and, if_true]
      have hu : ∀ (j t : Nat),
          (∑ u in Finset.range ((xW - L.kw) / L.sw + 1),
            if p = t ∧ q = u
            then convWindowSum x L.w j (t * L.sh) (u * L.sw) i L.kh L.kw
            else 0) =
          if p = t ∧ q < (xW - L.kw) / L.sw + 1
          then convWindowSum x L.w j (t * L.sh) (q * L.sw) i L.kh L.kw
          else 0 := fun j t => sum_ite_last _ _ _ _
      rw [Finset.sum_congr rfl fun j _ => Finset.sum_congr rfl fun t _ => hu j t]
      have ht : ∀ j : Nat,
          (∑ t in Finset.range ((xH - L.kh) / L.sh + 1),
            if p = t ∧ q < (xW - L.kw) / L.sw + 1
            then convWindowSum x L.w j (t * L.sh) (q * L.sw) i L.kh L.kw
            else 0) =
          if p < (xH - L.kh) / L.sh + 1 ∧ q < (xW - L.kw) / L.sw + 1
          then convWindowSum x L.w j (p * L.sh) (q * L.sw) i L.kh L.kw
          else 0 := fun j => sum_ite_fst _ _ _ _
      rw [Finset.sum_congr rfl fun j _ => ht j]
      simp [hp, hq]
    · have hne : ¬ (i0 = i) := fun he => h he.symm
      simp [hne, h]
  rw [Finset.sum_congr rfl hbody, Finset.sum_ite_eq']
  simp [Finset.mem_range, hi]

lemma ite_eq_and_zero (m n : Nat) (Q : Prop) [Decidable Q] (v : ℚ) :
    (if m = n ∧ Q then v else 0) = if m = n then (if Q then v else 0) else 0 := by
  by_cases h1 : m = n <;> by_cases h2 : Q <;> simp [h1, h2]

lemma dcLoopL_apply (L : Conv2DLayer) (xAct : Tensor3) (w : W4) (i j k : Nat)
    (buf : Tensor3) (lw : List Nat) (a r c : Nat) :
    dcLoopL L xAct w i j k buf lw a r c =
      buf a r c + (lw.map fun l =>
        if a = j ∧ k ≤ r ∧ r < k + L.kh ∧ l ≤ c ∧ c < l + L.kw
        then xAct i (k / L.sh) (l / L.sw) * w (c - l) (r - k) j i
        else 0).sum := by
  unfold dcLoopL
  exact foldl_add _ _
    (fun buf l a r c => sliceAddT_apply buf j k l L.kh L.kw
      (fun a2 b2 => xAct i (k / L.sh) (l / L.sw) * w b2 a2 j i) a r c)
    lw buf a r c

lemma dcLoopK_apply (L : Conv2DLayer) (xAct : Tensor3) (w : W4) (i j : Nat)
    (buf : Tensor3) (lh lw : List Nat) (a r c : Nat) :
    dcLoopK L xAct w i j buf lh lw a r c =
      buf a r c + (lh.map fun k => (lw.map fun l =>
        if a = j ∧ k ≤ r ∧ r < k + L.kh ∧ l ≤ c ∧ c < l + L.kw
        then xAct i (k / L.sh) (l / L.sw) * w (c - l) (r - k) j i
        else 0).sum).sum := by
  unfold dcLoopK
  exact foldl_add _ _
    (fun buf k a r c => dcLoopL_apply L xAct w i j k buf lw a r c)
    lh buf a r c

lemma dcLoopJ_apply (L : Conv2DLayer) (xAct : Tensor3) (w : W4) (i : Nat)
    (buf : Tensor3) (lh lw : List Nat) (a r c : Nat) :
    dcLoopJ L xAct w i buf lh lw a r c =
      buf a r c + ((List.range L.inC).map fun j => (lh.map fun k =>
        (lw.map fun l =>
          if a = j ∧ k ≤ r ∧ r < k + L.kh ∧ l ≤ c ∧ c < l + L.kw
          then xAct i (k / L.sh) (l / L.sw) * w (c - l) (r - k) j i
          else 0).sum).sum).sum := by
  unfold dcLoopJ
  exact foldl_add _ _
    (fun buf j a r c => dcLoopK_apply L xAct w i j buf lh lw a r c)
    (List.range L.inC) buf a r c

lemma conv2d_dcLoops_raw (L : Conv2DLayer) (xc : Nat) (xAct : Tensor3)
    (w : W4) (lh lw : List Nat) (a r c : Nat) :
    Conv2D.dcLoops L xc xAct w lh lw a r c =
      ((List.range xc).map fun i =>
        ((List.range L.inC).map fun j => (lh.map fun k =>
          (lw.map fun l =>
            if a = j ∧ k ≤ r ∧ r < k + L.kh ∧ l ≤ c ∧ c < l + L.kw
            then xAct i (k / L.sh) (l / L.sw) * w (c - l) (r - k) j i
            else 0).sum).sum).sum).sum := by
  unfold Conv2D.dcLoops
  have h := foldl_add _ _
    (fun buf i a r c => dcLoopJ_apply L xAct w i buf lh lw a r c)
    (List.range xc) (fun _ _ _ => 0) a r c
  rw [h]
  simp

lemma conv2d_dcLoops_apply (L : Conv2DLayer) (xc : Nat) (xAct : Tensor3)
    (w : W4) (hsh : 0 < L.sh) (hsw : 0 < L.sw) (hkh : L.kh ≤ L.inH)
    (hkw : L.kw ≤ L.inW) (j0 r c : Nat) (hj : j0 < L.inC) :
    Conv2D.dcLoops L xc xAct w (pyRange ((L.inH : Int) - L.kh + 1) L.sh)
        (pyRange ((L.inW : Int) - L.kw + 1) L.sw) j0 r c =
      ∑ i in Finset.range xc,
        ∑ t in Finset.range ((L.inH - L.kh) / L.sh + 1),
          ∑ u in Finset.range ((L.inW - L.kw) / L.sw + 1),
            if t * L.sh ≤ r ∧ r < t * L.sh + L.kh ∧
                u * L.sw ≤ c ∧ c < u * L.sw + L.kw
            then xAct i t u * w (c - u * L.sw) (r - t * L.sh) j0 i
            else 0 := by
  have hH : (L.inH : Int) - L.kh + 1 = ((L.inH - L.kh : Nat) : Int) + 1 := by
    rw [Nat.cast_sub hkh]
  have hW2 : (L.inW : Int) - L.kw + 1 = ((L.inW - L.kw : Nat) : Int) + 1 := by
    rw [Nat.cast_sub hkw]
  have hdivH : ∀ t : Nat, t * L.sh / L.sh = t := fun t => Nat.mul_div_left t hsh
  have hdivW : ∀ t : Nat, t * L.sw / L.sw = t := fun t => Nat.mul_div_left t hsw
  rw [hH, hW2, pyRange_succ _ _ hsh, pyRange_succ _ _ hsw, conv2d_dcLoops_raw]
  simp only [List.map_map, list_range_map_sum, Function.comp_apply,
    hdivH, hdivW]
  simp only [ite_eq_and_zero]
  simp only [sum_ite_const]
  simp only [Finset.sum_ite_eq, Finset.mem_range]
  simp [hj]

/-- C1: for a Conv2D layer and an input of the declared shape, `feedforward`
computes, per output channel `i` and window position `(p, q)`, the sum over
input channels `j` and window offsets of the elementwise product of the
kernel-sized window of `x` with `w[:, :, j, i]`, plus the bias `b i`, under
the elementwise activation; the number of window positions along each axis
is `(input_dim - kernel_dim) / stride + 1`. -/
theorem conv2d_feedforward_claim (L : Conv2DLayer) (x : Tensor3)
    (hsh : 0 < L.sh) (hsw : 0 < L.sw) (hkh : L.kh ≤ L.inH)
    (hkw : L.kw ≤ L.inW) (hoH : L.outH = (L.inH - L.kh) / L.sh + 1)
    (hoW : L.outW = (L.inW - L.kw) / L.sw + 1) :
    (∀ i p q, i < L.outC → p < L.outH → q < L.outW →
      (Conv2D.feedforward L L.inC L.inH L.inW x).1 i p q =
        L.act ((∑ j in Finset.range L.inC, ∑ a in Finset.range L.kh,
          ∑ c in Finset.range L.kw,
            x j (p * L.sh + a) (q * L.sw + c) * L.w a c j i) + L.b i)) ∧
    (pyRange ((L.inH : Int) - L.kh + 1) L.sh).length = L.outH ∧
    (pyRange ((L.inW : Int) - L.kw + 1) L.sw).length = L.outW := by
  refine ⟨?_, ?_, ?_⟩
  · intro i p q hi hp hq
    rw [hoH] at hp
    rw [hoW] at hq
    have h := conv2d_ffLoops_apply L L.inC L.inH L.inW x hsh hsw hkh hkw
      i p q hi hp hq
    show L.act (Conv2D.ffLoops L L.inC x _ _ i p q) = _
    rw [h]
    rfl
  · rw [show (L.inH : Int) - L.kh + 1 = ((L.inH - L.kh : Nat) : Int) + 1 by
      rw [Nat.cast_sub hkh], pyRange_succ _ _ hsh, List.length_map,
      List.length_range, hoH]
  · rw [show (L.inW : Int) - L.kw + 1 = ((L.inW - L.kw : Nat) : Int) + 1 by
      rw [Nat.cast_sub hkw], pyRange_succ _ _ hsw, List.length_map,
      List.length_range, hoW]

/-- Witness for C1 at a concrete layer and input: the hypotheses hold for
`convLayerA` and the instantiated conclusion gives the cell value. -/
theorem conv2d_feedforward_claim_witness :
    (0 < convLayerA.sh ∧ convLayerA.kh ≤ convLayerA.inH ∧
      convLayerA.outH = (convLayerA.inH - convLayerA.kh) / convLayerA.sh + 1) ∧
    (Conv2D.feedforward convLayerA convLayerA.inC convLayerA.inH
        convLayerA.inW qOne3).1 0 0 0 =
      convLayerA.act ((∑ j in Finset.range convLayerA.inC,
        ∑ a in Finset.range convLayerA.kh, ∑ c in Finset.range convLayerA.kw,
          qOne3 j (0 * convLayerA.sh + a) (0 * convLayerA.sw + c) *
            convLayerA.w a c j 0) + convLayerA.b 0) :=
  ⟨⟨by decide, by decide, by decide⟩,
    (conv2d_feedforward_claim convLayerA qOne3 (by decide) (by decide)
      (by decide) (by decide) (by decide) (by decide)).1 0 0 0
      (by decide) (by decide) (by decide)⟩

/-- C3: Conv2D.deconvolve applies the activation to `x`, then accumulates,
for every channel `i` of `x`, every result channel `j` and every window
position of the forward grid, `x[i, row, col] * transpose(w[:, :, j, i])`
onto the corresponding window (overlapping windows sum); omitted `x`
defaults to the cached forward output, omitted `w` to the layer's weights;
the result is cached in `deconv_output`. -/
theorem conv2d_deconvolve_claim (L : Conv2DLayer) (xc : Nat) (x0 : Tensor3)
    (w : W4) (hsh : 0 < L.sh) (hsw : 0 < L.sw) (hkh : L.kh ≤ L.inH)
    (hkw : L.kw ≤ L.inW) :
    (∀ j r c, j < L.inC →
      (Conv2D.deconvolve L (some (xc, x0)) (some w)).1 j r c =
        ∑ i in Finset.range xc,
          ∑ t in Finset.range ((L.inH - L.kh) / L.sh + 1),
            ∑ u in Finset.range ((L.inW - L.kw) / L.sw + 1),
              if t * L.sh ≤ r ∧ r < t * L.sh + L.kh ∧
                  u * L.sw ≤ c ∧ c < u * L.sw + L.kw
              then L.act (x0 i t u) * w (c - u * L.sw) (r - t * L.sh) j i
              else 0) ∧
    Conv2D.deconvolve L none (some w) =
      Conv2D.deconvolve L (some (L.outC, L.output)) (some w) ∧
    Conv2D.deconvolve L (some (xc, x0)) none =
      Conv2D.deconvolve L (some (xc, x0)) (some L.w) ∧
    (Conv2D.deconvolve L (some (xc, x0)) (some w)).2.deconvOut =
      (Conv2D.deconvolve L (some (xc, x0)) (some w)).1 := by
  refine ⟨?_, rfl, rfl, rfl⟩
  intro j r c hj
  show Conv2D.dcLoops L xc (fun i p q => L.act (x0 i p q)) w _ _ j r c = _
  rw [conv2d_dcLoops_apply L xc _ w hsh hsw hkh hkw j r c hj]

/-- Witness for C3 at a concrete layer: the hypotheses hold for `convLayerA`
and the instantiated conclusion gives the cell value of the deconvolution. -/
theorem conv2d_deconvolve_claim_witness :
    (0 < convLayerA.sh ∧ convLayerA.kh ≤ convLayerA.inH ∧ 0 < convLayerA.inC) ∧
    (Conv2D.deconvolve convLayerA (some (1, qOne3)) (some convLayerA.w)).1
        0 0 0 =
      ∑ i in Finset.range 1,
        ∑ t in Finset.range ((convLayerA.inH - convLayerA.kh) /
          convLayerA.sh + 1),
          ∑ u in Finset.range ((convLayerA.inW - convLayerA.kw) /
            convLayerA.sw + 1),
            if t * convLayerA.sh ≤ 0 ∧ 0 < t * convLayerA.sh + convLayerA.kh ∧
                u * convLayerA.sw ≤ 0 ∧ 0 < u * convLayerA.sw + convLayerA.kw
            then convLayerA.act (qOne3 i t u) *
              convLayerA.w (0 - u * convLayerA.sw) (0 - t * convLayerA.sh) 0 i
            else 0 :=
  ⟨⟨by decide, by decide, by decide⟩,
    (conv2d_deconvolve_claim convLayerA 1 qOne3 convLayerA.w (by decide)
      (by decide) (by decide) (by decide)).1 0 0 0 (by decide)⟩

/-- C8 counterexample: Conv2D with two declared input channels, fed a
1-channel 3×3 input.  No `ShapeMismatch` is raised; the call completes,
returns a value computed from the mismatched input (4: the 2×2 window summed
over the single supplied channel instead of 8 over two channels), and the
output buffer is overwritten with it. -/
theorem conv2d_feedforward_shape_counterexample :
    (Conv2D.feedforward convLayerB 1 3 3 qOne3).1 0 0 0 = 4 ∧
    (Conv2D.feedforward convLayerB 1 3 3 qOne3).2.output 0 0 0 = 4 ∧
    (4 : ℚ) ≠ 0 := by
  have h := conv2d_ffLoops_apply convLayerB 1 3 3 qOne3 (by decide)
    (by decide) (by decide) (by decide) 0 0 0 (by decide) (by decide)
    (by decide)
  have hval : (Conv2D.feedforward convLayerB 1 3 3 qOne3).1 0 0 0 = 4 := by
    show convLayerB.act (Conv2D.ffLoops convLayerB 1 qOne3 _ _ 0 0 0) = 4
    rw [h]
    norm_num [convWindowSum, convLayerB, qOne3, Finset.sum_range_succ]
  exact ⟨hval, hval, by norm_num⟩

/-- C8 amended: the code performs no shape validation.  `feedforward` drives
its loops by the input's actual extent, completes normally on a mismatched
input (computing with however many channels the input actually has), and the
layer's output buffer is overwritten with the result. -/
theorem conv2d_feedforward_no_shape_check (L : Conv2DLayer)
    (xC xH xW : Nat) (x : Tensor3) (hsh : 0 < L.sh) (hsw : 0 < L.sw)
    (hkh : L.kh ≤ xH) (hkw : L.kw ≤ xW) :
    (∀ i p q, i < L.outC → p < (xH - L.kh) / L.sh + 1 →
        q < (xW - L.kw) / L.sw + 1 →
      (Conv2D.feedforward L xC xH xW x).1 i p q =
        L.act ((∑ j in Finset.range xC,
          convWindowSum x L.w j (p * L.sh) (q * L.sw) i L.kh L.kw) + L.b i)) ∧
    (Conv2D.feedforward L xC xH xW x).2.output =
      (Conv2D.feedforward L xC xH xW x).1 := by
  refine ⟨?_, rfl⟩
  intro i p q hi hp hq
  have h := conv2d_ffLoops_apply L xC xH xW x hsh hsw hkh hkw i p q hi hp hq
  show L.act (Conv2D.ffLoops L xC x _ _ i p q) = _
  rw [h]

/-- Witness for the amended C8: applied to `convLayerB` (declared 2-channel
input) with a 1-channel input of extent 3×3. -/
theorem conv2d_feedforward_no_shape_check_witness :
    (0 < convLayerB.sh ∧ convLayerB.kh ≤ 3 ∧ (1 : Nat) ≠ convLayerB.inC) ∧
    (Conv2D.feedforward convLayerB 1 3 3 qOne3).1 0 0 0 =
      convLayerB.act ((∑ j in Finset.range 1,
        convWindowSum qOne3 convLayerB.w j (0 * convLayerB.sh)
          (0 * convLayerB.sw) 0 convLayerB.kh convLayerB.kw) +
        convLayerB.b 0) :=
  ⟨⟨by decide, by decide, by decide⟩,
    (conv2d_feedforward_no_shape_check convLayerB 1 3 3 qOne3 (by decide)
      (by decide) (by decide) (by decide)).1 0 0 0 (by decide) (by decide)
      (by decide)⟩

lemma pyRange_natCast (m s : Nat) (hs : 0 < s) :
    pyRange (m : Int) s = (List.range ((m + s - 1) / s)).map fun t => t * s := by
  unfold pyRange
  congr 1
  have h1 : (m : Int) + s - 1 = ((m + s - 1 : Nat) : Int) := by omega
  rw [h1, ← Int.ofNat_ediv, Int.toNat_ofNat]

lemma mp_stop_count (m s : Nat) (hs : 0 < s) : (m * s + s - 1) / s = m := by
  rw [Nat.add_sub_assoc (by omega : 1 ≤ s), Nat.mul_comm,
    Nat.mul_add_div hs, Nat.div_eq_of_lt (by omega : s - 1 < s)]
  rfl

lemma div_sub_succ (H s : Nat) (hs : 0 < s) (hsH : s ≤ H) :
    (H - s) / s + 1 = H / s := by
  conv_rhs => rw [← Nat.sub_add_cancel hsH]
  rw [Nat.add_div_right _ hs]

lemma mp_ff_fst (L : MPLayer) (xC xH xW : Nat) (x : Tensor3) :
    (MaxPool2D.feedforward L xC xH xW x).1 =
      (mpPositions xC xH xW L.ph L.pw L.sh L.sw).foldl
        (fun b pos => writeSetG b (mpCell L.ph L.pw pos)
          (mpMaxVal x L.ph L.pw xH xW pos)) L.output := by
  simp only [MaxPool2D.feedforward]
  exact congrArg Prod.fst (foldl_pair
    (fun b pos => writeSetG b (mpCell L.ph L.pw pos)
      (mpMaxVal x L.ph L.pw xH xW pos))
    (fun b pos => writeSetG b (mpCell L.ph L.pw pos)
      (mpMaxIdx x L.ph L.pw xH xW pos))
    (mpPositions xC xH xW L.ph L.pw L.sh L.sw) L.output L.indices)

lemma mp_ff_indices (L : MPLayer) (xC xH xW : Nat) (x : Tensor3) :
    (MaxPool2D.feedforward L xC xH xW x).2.indices =
      (mpPositions xC xH xW L.ph L.pw L.sh L.sw).foldl
        (fun b pos => writeSetG b (mpCell L.ph L.pw pos)
          (mpMaxIdx x L.ph L.pw xH xW pos)) L.indices := by
  simp only [MaxPool2D.feedforward]
  exact congrArg Prod.snd (foldl_pair
    (fun b pos => writeSetG b (mpCell L.ph L.pw pos)
      (mpMaxVal x L.ph L.pw xH xW pos))
    (fun b pos => writeSetG b (mpCell L.ph L.pw pos)
      (mpMaxIdx x L.ph L.pw xH xW pos))
    (mpPositions xC xH xW L.ph L.pw L.sh L.sw) L.output L.indices)

/-- C2 (amended to strides = pool_size, see the counterexample): per
channel, MaxPooling2D.feedforward writes, at every declared output cell, the
maximum of the full pool window at the stride-stepped corner, and records
the window-local argmax position offset by the window corner. -/
theorem maxpool_feedforward_claim (L : MPLayer) (x : Tensor3)
    (hsp : L.sh = L.ph) (hswp : L.sw = L.pw) (hph : 0 < L.ph)
    (hpw : 0 < L.pw) (hphH : L.ph ≤ L.inH) (hpwW : L.pw ≤ L.inW)
    (hoH : L.outH = (L.inH - L.ph) / L.sh + 1)
    (hoW : L.outW = (L.inW - L.pw) / L.sw + 1) :
    ∀ n p q, n < L.inC → p < L.outH → q < L.outW →
      (MaxPool2D.feedforward L L.inC L.inH L.inW x).1 n p q =
        fullWindowMax x n (p * L.sh) (q * L.sw) L.ph L.pw ∧
      (MaxPool2D.feedforward L L.inC L.inH L.inW x).2.indices n p q =
        fullWindowArg x n (p * L.sh) (q * L.sw) L.ph L.pw := by
  intro n p q hn hp hq
  rw [hoH, hsp, div_sub_succ _ _ hph hphH] at hp
  rw [hoW, hswp, div_sub_succ _ _ hpw hpwW] at hq
  have hpphH : p * L.ph + L.ph ≤ L.inH := by
    have h2 : (p + 1) * L.ph ≤ L.inH / L.ph * L.ph :=
      Nat.mul_le_mul_right _ hp
    have h3 : L.inH / L.ph * L.ph ≤ L.inH := Nat.div_mul_le_self _ _
    calc p * L.ph + L.ph = (p + 1) * L.ph := by ring
    _ ≤ L.inH := le_trans h2 h3
  have hqpwW : q * L.pw + L.pw ≤ L.inW := by
    have h2 : (q + 1) * L.pw ≤ L.inW / L.pw * L.pw :=
      Nat.mul_le_mul_right _ hq
    have h3 : L.inW / L.pw * L.pw ≤ L.inW := Nat.div_mul_le_self _ _
    calc q * L.pw + L.pw = (q + 1) * L.pw := by ring
    _ ≤ L.inW := le_trans h2 h3
  have hlist : mpPositions L.inC L.inH L.inW L.ph L.pw L.sh L.sw =
      (List.range L.inC).flatMap fun n2 =>
        ((List.range (L.inH / L.ph)).map fun t => t * L.ph).flatMap fun ih =>
          ((List.range (L.inW / L.pw)).map fun u => u * L.pw).map
            fun iw => (n2, ih, iw) := by
    unfold mpPositions
    rw [hsp, hswp, pyRange_natCast _ _ hph, pyRange_natCast _ _ hpw,
      mp_stop_count _ _ hph, mp_stop_count _ _ hpw]
  have hk0mem : (n, p * L.ph, q * L.pw) ∈
      mpPositions L.inC L.inH L.inW L.ph L.pw L.sh L.sw := by
    rw [hlist]
    simp only [List.mem_flatMap, List.mem_map, List.mem_range]
    exact ⟨n, hn, ⟨p * L.ph, ⟨p, hp, rfl⟩, ⟨q * L.pw, ⟨q, hq, rfl⟩, rfl⟩⟩⟩
  have hk0cell : mpCell L.ph L.pw (n, p * L.ph, q * L.pw) = (n, p, q) := by
    simp [mpCell, Nat.mul_div_left p hph, Nat.mul_div_left q hpw]
  have huniq : ∀ pos ∈ mpPositions L.inC L.inH L.inW L.ph L.pw L.sh L.sw,
      mpCell L.ph L.pw pos = (n, p, q) → pos = (n, p * L.ph, q * L.pw) := by
    rw [hlist]
    intro pos hpos hcell
    simp only [List.mem_flatMap, List.mem_map, List.mem_range] at hpos
    obtain ⟨n2, hn2, ih, ⟨t, ht, rfl⟩, iw, ⟨u, hu, rfl⟩, rfl⟩ := hpos
    simp only [mpCell, Nat.mul_div_left t hph, Nat.mul_div_left u hpw,
      Prod.mk.injEq] at hcell
    obtain ⟨rfl, rfl, rfl⟩ := hcell
    rfl
  have hm1 : min L.ph (L.inH - p * L.ph) = L.ph :=
    Nat.min_eq_left (Nat.le_sub_of_add_le (by omega))
  have hm2 : min L.pw (L.inW - q * L.pw) = L.pw :=
    Nat.min_eq_left (Nat.le_sub_of_add_le (by omega))
  constructor
  · have hval := foldl_writeSetG_unique (mpCell L.ph L.pw)
      (mpMaxVal x L.ph L.pw L.inH L.inW)
      (mpPositions L.inC L.inH L.inW L.ph L.pw L.sh L.sw) L.output n p q
      (n, p * L.ph, q * L.pw) hk0mem hk0cell huniq
    rw [mp_ff_fst, hval, hsp, hswp]
    unfold mpMaxVal mpWindowScan fullWindowMax
    rw [hm1, hm2]
  · have hval := foldl_writeSetG_unique (mpCell L.ph L.pw)
      (mpMaxIdx x L.ph L.pw L.inH L.inW)
      (mpPositions L.inC L.inH L.inW L.ph L.pw L.sh L.sw) L.indices n p q
      (n, p * L.ph, q * L.pw) hk0mem hk0cell huniq
    rw [mp_ff_indices, hval, hsp, hswp]
    unfold mpMaxIdx mpWindowScan fullWindowArg
    rw [hm1, hm2]

/-- Witness for the amended C2: `mpLayerB` has strides = pool_size, and the
instantiated conclusion gives the output cell and recorded indices. -/
theorem maxpool_feedforward_claim_witness :
    (mpLayerB.sh = mpLayerB.ph ∧ 0 < mpLayerB.ph ∧
      mpLayerB.outH = (mpLayerB.inH - mpLayerB.ph) / mpLayerB.sh + 1) ∧
    ((MaxPool2D.feedforward mpLayerB mpLayerB.inC mpLayerB.inH mpLayerB.inW
        xPeak).1 0 0 0 =
      fullWindowMax xPeak 0 (0 * mpLayerB.sh) (0 * mpLayerB.sw) mpLayerB.ph
        mpLayerB.pw ∧
    (MaxPool2D.feedforward mpLayerB mpLayerB.inC mpLayerB.inH mpLayerB.inW
        xPeak).2.indices 0 0 0 =
      fullWindowArg xPeak 0 (0 * mpLayerB.sh) (0 * mpLayerB.sw) mpLayerB.ph
        mpLayerB.pw) :=
  ⟨⟨rfl, by decide, by decide⟩,
    maxpool_feedforward_claim mpLayerB xPeak rfl rfl (by decide) (by decide)
      (by decide) (by decide) (by decide) (by decide) 0 0 0 (by decide)
      (by decide) (by decide)⟩

/-- C2 counterexample: with pool (2, 2) and strides (1, 1) on a 2×2 input
whose maximum 5 sits at (0, 0), the code also visits corners where no full
window fits (clamped windows) and maps them all to output cell (0, 0, 0), so
the final value is 1 (the last clamped window's maximum), not the full
window's maximum 5 that the claim requires at the only fitting position. -/
theorem maxpool_feedforward_counterexample :
    (MaxPool2D.feedforward mpLayerA 1 2 2 xPeak).1 0 0 0 = 1 ∧
    fullWindowMax xPeak 0 0 0 2 2 = 5 ∧ (1 : ℚ) ≠ 5 := by
  refine ⟨?_, ?_, by norm_num⟩
  · rw [mp_ff_fst]
    have hpos : mpPositions 1 2 2 mpLayerA.ph mpLayerA.pw mpLayerA.sh
        mpLayerA.sw = [(0, 0, 0), (0, 0, 1), (0, 1, 0), (0, 1, 1)] := by
      decide
    rw [hpos]
    norm_num [writeSetG, mpCell, mpMaxVal, mpWindowScan, argmaxScan,
      sliceLocs, mpLayerA, xPeak, List.range_succ]
  · norm_num [fullWindowMax, argmaxScan, sliceLocs, xPeak, List.range_succ]

lemma mp_dec_fst (L : MPLayer) (xC xH xW : Nat) (x : Tensor3) :
    (MaxPool2D.deconvolve L xC xH xW x).1 =
      (idxTriples xC xH xW).foldl
        (fun b pos =>
          writeSetG b (mpDecCell L.indices pos) (x pos.1 pos.2.1 pos.2.2))
        L.deconvOut := rfl

/-- C4 (amended: the scratch buffer is not cleared between calls, see the
counterexample): MaxPooling2D.deconvolve writes, for every cell of `x`, the
cell's value into the deconvolution buffer at the coordinates recorded in
`indices` (exactly that value when no other cell shares the coordinate);
positions addressed by no cell retain the buffer's previous contents, so
they are zero only if nothing was written there before; the result is
cached in `deconvolutional_output`. -/
theorem maxpool_deconvolve_claim (L : MPLayer) (xC xH xW : Nat)
    (x : Tensor3) :
    (∀ pos, pos ∈ idxTriples xC xH xW →
      (∀ pos2 ∈ idxTriples xC xH xW,
        mpDecCell L.indices pos2 = mpDecCell L.indices pos → pos2 = pos) →
      (MaxPool2D.deconvolve L xC xH xW x).1 (mpDecCell L.indices pos).1
          (mpDecCell L.indices pos).2.1 (mpDecCell L.indices pos).2.2 =
        x pos.1 pos.2.1 pos.2.2) ∧
    (∀ a r c, (∀ pos ∈ idxTriples xC xH xW,
        mpDecCell L.indices pos ≠ (a, r, c)) →
      (MaxPool2D.deconvolve L xC xH xW x).1 a r c = L.deconvOut a r c) ∧
    (MaxPool2D.deconvolve L xC xH xW x).2.deconvOut =
      (MaxPool2D.deconvolve L xC xH xW x).1 := by
  refine ⟨?_, ?_, rfl⟩
  · intro pos hmem huniq
    rw [mp_dec_fst]
    exact foldl_writeSetG_unique (mpDecCell L.indices)
      (fun p => x p.1 p.2.1 p.2.2) (idxTriples xC xH xW) L.deconvOut
      (mpDecCell L.indices pos).1 (mpDecCell L.indices pos).2.1
      (mpDecCell L.indices pos).2.2 pos hmem rfl huniq
  · intro a r c hnone
    rw [mp_dec_fst]
    exact foldl_writeSetG_none (mpDecCell L.indices) _
      (idxTriples xC xH xW) L.deconvOut a r c hnone

/-- Witness for the amended C4: a fresh 1×1×1-output layer whose single
recorded coordinate is (0, 0); deconvolving a constant 5 writes 5 there. -/
theorem maxpool_deconvolve_claim_witness :
    ((0, 0, 0) ∈ idxTriples 1 1 1 ∧ mpLayerB.indices 0 0 0 = (0, 0)) ∧
    (MaxPool2D.deconvolve mpLayerB 1 1 1 xFive).1 0 0 0 = xFive 0 0 0 :=
  ⟨⟨by decide, rfl⟩,
    (maxpool_deconvolve_claim mpLayerB 1 1 1 xFive).1 (0, 0, 0) (by decide)
      (by decide)⟩

/-- C4 counterexample: feedforward records (0, 0); deconvolve writes 5 at
(0, 0, 0); a second feedforward records (1, 1); the next deconvolve of the
same tensor addresses only (0, 1, 1), yet (0, 0, 0) still holds the stale 5
from the first call — the returned tensor is not zero outside the addressed
positions, so the buffer does not behave as freshly zero-filled. -/
theorem maxpool_deconvolve_counterexample :
    ((MaxPool2D.feedforward (MaxPool2D.deconvolve
        (MaxPool2D.feedforward mpLayerB 1 2 2 yTopLeft).2 1 1 1 xFive).2
        1 2 2 yBotRight).2.indices 0 0 0 = (1, 1)) ∧
    (MaxPool2D.deconvolve (MaxPool2D.feedforward (MaxPool2D.deconvolve
        (MaxPool2D.feedforward mpLayerB 1 2 2 yTopLeft).2 1 1 1 xFive).2
        1 2 2 yBotRight).2 1 1 1 xFive).1 0 0 0 = 5 ∧
    (5 : ℚ) ≠ 0 := by
  have hpos : mpPositions 1 2 2 2 2 2 2 = [(0, 0, 0)] := by decide
  have htri : idxTriples 1 1 1 = [(0, 0, 0)] := by decide
  refine ⟨?_, ?_, by norm_num⟩ <;>
    norm_num [MaxPool2D.feedforward, MaxPool2D.deconvolve, hpos, htri,
      mpCell, mpDecCell, mpMaxVal, mpMaxIdx, mpWindowScan, argmaxScan,
      sliceLocs, writeSetG, mpLayerB, yTopLeft, yBotRight, xFive,
      List.range_succ]

lemma scan_foldl_mem (rest : List ((Nat × Nat) × ℚ)) (v : (Nat × Nat) × ℚ) :
    rest.foldl (fun best p => if best.2 < p.2 then p else best) v ∈
      v :: rest := by
  induction rest generalizing v with
  | nil => simp
  | cons p rest ih =>
      simp only [List.foldl_cons]
      by_cases hvp : v.2 < p.2
      · rw [if_pos hvp]
        exact List.mem_cons_of_mem v (ih p)
      · rw [if_neg hvp]
        rcases List.mem_cons.mp (ih v) with h | h
        · exact List.mem_cons.mpr (Or.inl h)
        · exact List.mem_cons_of_mem _ (List.mem_cons_of_mem _ h)

lemma argmaxScan_mem (vals : List ((Nat × Nat) × ℚ)) (h : vals ≠ []) :
    argmaxScan vals ∈ vals := by
  cases vals with
  | nil => exact absurd rfl h
  | cons v rest => exact scan_foldl_mem rest v

lemma sliceLocs_mem_bounds (rows cols : Nat) (ab : Nat × Nat)
    (h : ab ∈ sliceLocs rows cols) : ab.1 < rows ∧ ab.2 < cols := by
  simp only [sliceLocs, List.mem_flatMap, List.mem_map, List.mem_range] at h
  obtain ⟨a, ha, b, hb, rfl⟩ := h
  exact ⟨ha, hb⟩

lemma pyRange_mem_lt (m s : Nat) (hs : 0 < s) (ih : Nat)
    (h : ih ∈ pyRange (m : Int) s) : ih < m := by
  rw [pyRange_natCast m s hs] at h
  simp only [List.mem_map, List.mem_range] at h
  obtain ⟨t, ht, rfl⟩ := h
  have h4 : (t + 1) * s ≤ (m + s - 1) / s * s :=
    Nat.mul_le_mul_right s (Nat.succ_le_of_lt ht)
  have h5 : (m + s - 1) / s * s ≤ m + s - 1 := Nat.div_mul_le_self _ _
  have h6 : t * s + s ≤ m + s - 1 := by
    calc t * s + s = (t + 1) * s := by ring
    _ ≤ m + s - 1 := le_trans h4 h5
  omega

lemma foldl_writeSetG_cases {κ α : Type} (cell : κ → Nat × Nat × Nat)
    (v : κ → α) (ks : List κ) (buf : T3 α) (i p q : Nat) :
    (ks.foldl (fun b k => writeSetG b (cell k) (v k)) buf) i p q =
        buf i p q ∨
      ∃ k ∈ ks, cell k = (i, p, q) ∧
        (ks.foldl (fun b k => writeSetG b (cell k) (v k)) buf) i p q = v k := by
  induction ks generalizing buf with
  | nil => exact Or.inl rfl
  | cons k ks ih =>
      rcases ih (writeSetG buf (cell k) (v k)) with h | ⟨k', hk', hc', hv⟩
      · by_cases hc : cell k = (i, p, q)
        · refine Or.inr ⟨k, List.mem_cons_self k ks, hc, ?_⟩
          rw [List.foldl_cons, h, writeSetG_apply, hc, if_pos rfl]
        · refine Or.inl ?_
          rw [List.foldl_cons, h, writeSetG_apply,
            if_neg fun he => hc he.symm]
      · refine Or.inr ⟨k', List.mem_cons_of_mem _ hk', hc', ?_⟩
        rw [List.foldl_cons]
        exact hv

lemma mpMaxIdx_lt (x : Tensor3) (ph pw xH xW : Nat) (pos : Nat × Nat × Nat)
    (h1 : pos.2.1 < xH) (h2 : pos.2.2 < xW) :
    (mpMaxIdx x ph pw xH xW pos).1 < xH ∧
      (mpMaxIdx x ph pw xH xW pos).2 < xW := by
  unfold mpMaxIdx mpWindowScan
  set vals := (sliceLocs (min ph (xH - pos.2.1))
    (min pw (xW - pos.2.2))).map
    (fun ab => (ab, x pos.1 (pos.2.1 + ab.1) (pos.2.2 + ab.2))) with hv
  by_cases hnil : vals = []
  · rw [hnil]
    simpa [argmaxScan] using ⟨h1, h2⟩
  · have hm := argmaxScan_mem vals hnil
    rw [hv] at hm
    simp only [List.mem_map] at hm
    obtain ⟨ab, hab, heq⟩ := hm
    have hb := sliceLocs_mem_bounds _ _ ab hab
    have h1' : (argmaxScan vals).1 = ab := by rw [← heq]
    rw [h1']
    obtain ⟨hb1, hb2⟩ := hb
    constructor
    · omega
    · omega

lemma mpPositions_mem_corner (xC xH xW ph pw sh sw : Nat) (hs : 0 < sh)
    (hw : 0 < sw) (pos : Nat × Nat × Nat)
    (h : pos ∈ mpPositions xC xH xW ph pw sh sw) :
    pos.1 < xC ∧ pos.2.1 < xH ∧ pos.2.2 < xW := by
  simp only [mpPositions, List.mem_flatMap, List.mem_map, List.mem_range]
    at h
  obtain ⟨n, hn, ihp, hihp, iw, hiw, rfl⟩ := h
  have h1 : ihp < xH / ph * ph := pyRange_mem_lt _ _ hs ihp hihp
  have h2 : xH / ph * ph ≤ xH := Nat.div_mul_le_self _ _
  have h3 : iw < xW / pw * pw := pyRange_mem_lt _ _ hw iw hiw
  have h4 : xW / pw * pw ≤ xW := Nat.div_mul_le_self _ _
  refine ⟨hn, ?_, ?_⟩ <;> dsimp only <;> omega

lemma idxTriples_mem_bounds (cN hN wN : Nat) (pos : Nat × Nat × Nat)
    (h : pos ∈ idxTriples cN hN wN) :
    pos.1 < cN ∧ pos.2.1 < hN ∧ pos.2.2 < wN := by
  simp only [idxTriples, List.mem_flatMap, List.mem_map, List.mem_range] at h
  obtain ⟨i, hi, j, hj, k, hk, rfl⟩ := h
  exact ⟨hi, hj, hk⟩

/-- C10: after a feedforward on a declared-shape input, every coordinate
pair stored in `indices` lies within the input's spatial bounds, so a
subsequent deconvolve on an output-shaped tensor only touches in-bounds
coordinates of the input-shaped deconvolution buffer. -/
theorem maxpool_indices_bounds_claim (L : MPLayer) (x : Tensor3)
    (hph : 0 < L.ph) (hpw : 0 < L.pw) (hsh : 0 < L.sh) (hsw : 0 < L.sw)
    (hH : 0 < L.inH) (hW : 0 < L.inW) (hC : L.outC = L.inC)
    (hprev : ∀ n p q,
      (L.indices n p q).1 < L.inH ∧ (L.indices n p q).2 < L.inW) :
    (∀ n p q,
      ((MaxPool2D.feedforward L L.inC L.inH L.inW x).2.indices n p q).1 <
          L.inH ∧
      ((MaxPool2D.feedforward L L.inC L.inH L.inW x).2.indices n p q).2 <
          L.inW) ∧
    (∀ y a r c,
      (MaxPool2D.deconvolve (MaxPool2D.feedforward L L.inC L.inH L.inW x).2
          L.outC L.outH L.outW y).1 a r c ≠
        (MaxPool2D.feedforward L L.inC L.inH L.inW x).2.deconvOut a r c →
      a < L.inC ∧ r < L.inH ∧ c < L.inW) := by
  have hidx : ∀ n p q,
      ((MaxPool2D.feedforward L L.inC L.inH L.inW x).2.indices n p q).1 <
          L.inH ∧
      ((MaxPool2D.feedforward L L.inC L.inH L.inW x).2.indices n p q).2 <
          L.inW := by
    intro n p q
    rw [mp_ff_indices]
    rcases foldl_writeSetG_cases (mpCell L.ph L.pw)
      (mpMaxIdx x L.ph L.pw L.inH L.inW)
      (mpPositions L.inC L.inH L.inW L.ph L.pw L.sh L.sw) L.indices n p q
      with h | ⟨k, hk, _, hv⟩
    · rw [h]
      exact hprev n p q
    · rw [hv]
      have hkb := mpPositions_mem_corner L.inC L.inH L.inW L.ph L.pw L.sh
        L.sw hsh hsw k hk
      exact mpMaxIdx_lt x _ _ _ _ k hkb.2.1 hkb.2.2
  refine ⟨hidx, ?_⟩
  intro y a r c hdiff
  by_cases h : ∃ pos ∈ idxTriples L.outC L.outH L.outW,
      mpDecCell (MaxPool2D.feedforward L L.inC L.inH L.inW x).2.indices pos =
        (a, r, c)
  · obtain ⟨pos, hpos, hcell⟩ := h
    have hb := idxTriples_mem_bounds _ _ _ pos hpos
    have hi := hidx pos.1 pos.2.1 pos.2.2
    unfold mpDecCell at hcell
    have h1 : pos.1 = a := congrArg Prod.fst hcell
    have h2 :
        ((MaxPool2D.feedforward L L.inC L.inH L.inW x).2.indices pos.1
          pos.2.1 pos.2.2).1 = r := congrArg (fun z => z.2.1) hcell
    have h3 :
        ((MaxPool2D.feedforward L L.inC L.inH L.inW x).2.indices pos.1
          pos.2.1 pos.2.2).2 = c := congrArg (fun z => z.2.2) hcell
    refine ⟨?_, ?_, ?_⟩
    · rw [← h1]
      rw [hC] at hb
      exact hb.1
    · rw [← h2]
      exact hi.1
    · rw [← h3]
      exact hi.2
  · push_neg at h
    have heq : (MaxPool2D.deconvolve
        (MaxPool2D.feedforward L L.inC L.inH L.inW x).2
        L.outC L.outH L.outW y).1 a r c =
        (MaxPool2D.feedforward L L.inC L.inH L.inW x).2.deconvOut a r c := by
      rw [mp_dec_fst]
      exact foldl_writeSetG_none _ _ _ _ a r c h
    exact absurd heq hdiff

/-- Witness for C10 on a concrete fresh layer: the stored coordinate pair at
(0, 0, 0) is within the 2×2 input extent. -/
theorem maxpool_indices_bounds_claim_witness :
    (0 < mpLayerB.ph ∧ 0 < mpLayerB.inH ∧ mpLayerB.outC = mpLayerB.inC) ∧
    ((MaxPool2D.feedforward mpLayerB mpLayerB.inC mpLayerB.inH mpLayerB.inW
        xPeak).2.indices 0 0 0).1 < mpLayerB.inH ∧
    ((MaxPool2D.feedforward mpLayerB mpLayerB.inC mpLayerB.inH mpLayerB.inW
        xPeak).2.indices 0 0 0).2 < mpLayerB.inW :=
  ⟨⟨by decide, by decide, rfl⟩,
    (maxpool_indices_bounds_claim mpLayerB xPeak (by decide) (by decide)
      (by decide) (by decide) (by decide) (by decide) rfl
      (fun _ _ _ => ⟨Nat.zero_lt_two, Nat.zero_lt_two⟩)).1 0 0 0⟩

lemma foldl_planeSet (f : Nat → Nat → Nat → ℝ) (n : Nat) (init : RTensor3)
    (i p q : Nat) :
    ((List.range n).foldl
      (fun buf j => fun i2 p2 q2 =>
        if i2 = j then f j p2 q2 else buf i2 p2 q2) init) i p q =
      if i < n then f i p q else init i p q := by
  induction n with
  | zero => simp
  | succ n ih =>
      rw [List.range_succ, List.foldl_append, List.foldl_cons, List.foldl_nil]
      by_cases h : i = n
      · subst h
        simp
      · have hiff : i < n + 1 ↔ i < n := by omega
        simp [h, ih, hiff]

lemma bn_ff_apply (L : BatchNormLayer) (xC : Nat) (x : RTensor3)
    (i p q : Nat) (hi : i < xC) :
    (BatchNorm.feedforward L xC x).1 i p q =
      L.g i * (x i p q - L.m i) / Real.sqrt (L.v i + L.e) + L.b i := by
  simp only [BatchNorm.feedforward]
  rw [foldl_planeSet, if_pos hi]

lemma mp_dec_state_indep (L L2 : MPLayer) (xC xH xW : Nat) (x : Tensor3)
    (hind : L2.indices = L.indices)
    (hbuf : ∀ a r c, (∀ pos ∈ idxTriples xC xH xW,
      mpDecCell L.indices pos ≠ (a, r, c)) →
      L2.deconvOut a r c = L.deconvOut a r c) :
    (MaxPool2D.deconvolve L2 xC xH xW x).1 =
      (MaxPool2D.deconvolve L xC xH xW x).1 := by
  funext a r c
  rw [mp_dec_fst, mp_dec_fst, hind]
  by_cases h : ∃ pos ∈ idxTriples xC xH xW,
      mpDecCell L.indices pos = (a, r, c)
  · exact foldl_writeSetG_indep _ _ _ _ _ a r c h
  · push_neg at h
    rw [foldl_writeSetG_none _ _ _ _ a r c h,
      foldl_writeSetG_none _ _ _ _ a r c h]
    exact hbuf a r c h

lemma mp_dec_then_dec (L : MPLayer) (y x : Tensor3) (xC xH xW : Nat) :
    (MaxPool2D.deconvolve (MaxPool2D.deconvolve L xC xH xW y).2
        xC xH xW x).1 =
      (MaxPool2D.deconvolve L xC xH xW x).1 :=
  mp_dec_state_indep L (MaxPool2D.deconvolve L xC xH xW y).2 xC xH xW x rfl
    (fun a r c h => by
      show (MaxPool2D.deconvolve L xC xH xW y).1 a r c = L.deconvOut a r c
      rw [mp_dec_fst]
      exact foldl_writeSetG_none _ _ _ _ a r c h)

lemma mp_applyCall_params (L : MPLayer) (c : MPCall) :
    (L.applyCall c).inC = L.inC ∧ (L.applyCall c).inH = L.inH ∧
    (L.applyCall c).inW = L.inW ∧ (L.applyCall c).outC = L.outC ∧
    (L.applyCall c).outH = L.outH ∧ (L.applyCall c).outW = L.outW ∧
    (L.applyCall c).ph = L.ph ∧ (L.applyCall c).pw = L.pw ∧
    (L.applyCall c).sh = L.sh ∧ (L.applyCall c).sw = L.sw := by
  cases c <;> exact ⟨rfl, rfl, rfl, rfl, rfl, rfl, rfl, rfl, rfl, rfl⟩

lemma mp_runCalls_params (L : MPLayer) (cs : List MPCall) :
    (MPLayer.runCalls L cs).inC = L.inC ∧
    (MPLayer.runCalls L cs).inH = L.inH ∧
    (MPLayer.runCalls L cs).inW = L.inW ∧
    (MPLayer.runCalls L cs).outC = L.outC ∧
    (MPLayer.runCalls L cs).outH = L.outH ∧
    (MPLayer.runCalls L cs).outW = L.outW ∧
    (MPLayer.runCalls L cs).ph = L.ph ∧
    (MPLayer.runCalls L cs).pw = L.pw ∧
    (MPLayer.runCalls L cs).sh = L.sh ∧
    (MPLayer.runCalls L cs).sw = L.sw := by
  induction cs generalizing L with
  | nil => exact ⟨rfl, rfl, rfl, rfl, rfl, rfl, rfl, rfl, rfl, rfl⟩
  | cons c cs ih =>
      obtain ⟨a1, a2, a3, a4, a5, a6, a7, a8, a9, a10⟩ := ih (L.applyCall c)
      obtain ⟨b1, b2, b3, b4, b5, b6, b7, b8, b9, b10⟩ :=
        mp_applyCall_params L c
      exact ⟨a1.trans b1, a2.trans b2, a3.trans b3, a4.trans b4,
        a5.trans b5, a6.trans b6, a7.trans b7, a8.trans b8, a9.trans b9,
        a10.trans b10⟩

lemma mp_clean_init (L : MPLayer) (h : L.output = fun _ _ _ => 0) :
    mpCleanOutput L := by
  intro a r c _
  rw [h]

lemma mp_clean_applyCall (L : MPLayer) (c : MPCall) (h : mpCleanOutput L) :
    mpCleanOutput (L.applyCall c) := by
  cases c with
  | dec x => exact fun a r c hn => h a r c hn
  | ff x =>
      intro a r c hn
      have hn' : ∀ pos ∈ mpPositions L.inC L.inH L.inW L.ph L.pw L.sh L.sw,
          mpCell L.ph L.pw pos ≠ (a, r, c) := hn
      show (MaxPool2D.feedforward L L.inC L.inH L.inW x).1 a r c = 0
      rw [mp_ff_fst, foldl_writeSetG_none _ _ _ _ a r c hn']
      exact h a r c hn'

lemma mp_clean_runCalls (L : MPLayer) (cs : List MPCall)
    (h : mpCleanOutput L) : mpCleanOutput (MPLayer.runCalls L cs) := by
  induction cs generalizing L with
  | nil => exact h
  | cons c cs ih => exact ih (L.applyCall c) (mp_clean_applyCall L c h)

lemma mp_ff_det (L1 L2 : MPLayer) (x : Tensor3)
    (hC : L1.inC = L2.inC) (hH : L1.inH = L2.inH) (hW : L1.inW = L2.inW)
    (hph : L1.ph = L2.ph) (hpw : L1.pw = L2.pw) (hsh : L1.sh = L2.sh)
    (hsw : L1.sw = L2.sw) (h1 : mpCleanOutput L1) (h2 : mpCleanOutput L2) :
    (MaxPool2D.feedforward L1 L1.inC L1.inH L1.inW x).1 =
      (MaxPool2D.feedforward L2 L2.inC L2.inH L2.inW x).1 := by
  funext a r c
  rw [mp_ff_fst, mp_ff_fst, ← hC, ← hH, ← hW, ← hph, ← hpw, ← hsh, ← hsw]
  by_cases h : ∃ pos ∈ mpPositions L1.inC L1.inH L1.inW L1.ph L1.pw L1.sh
      L1.sw, mpCell L1.ph L1.pw pos = (a, r, c)
  · exact foldl_writeSetG_indep _ _ _ _ _ a r c h
  · push_neg at h
    rw [foldl_writeSetG_none _ _ _ _ a r c h,
      foldl_writeSetG_none _ _ _ _ a r c h]
    have h2' := h
    rw [hC, hH, hW, hph, hpw, hsh, hsw] at h2'
    rw [h1 a r c h, h2 a r c h2']

/-- C5 (amended): feedforward is deterministic for every layer kind — its
result does not depend on the instance's mutable buffers (for MaxPooling2D:
regardless of which calls were made before, starting from a freshly
allocated instance) — and deconvolve with equal arguments returns equal
results provided no feedforward call intervenes; an intervening feedforward
can change deconvolve's result for equal arguments (see the
counterexample). -/
theorem layer_call_determinism :
    (∀ (L : Conv2DLayer) (o d : Tensor3) (xC xH xW : Nat) (x : Tensor3),
      (Conv2D.feedforward { L with output := o, deconvOut := d }
          xC xH xW x).1 =
        (Conv2D.feedforward L xC xH xW x).1) ∧
    (∀ (L : Conv2DLayer) (o d : Tensor3) (xc : Nat) (x0 : Tensor3)
        (wOpt : Option W4),
      (Conv2D.deconvolve { L with output := o, deconvOut := d }
          (some (xc, x0)) wOpt).1 =
        (Conv2D.deconvolve L (some (xc, x0)) wOpt).1) ∧
    (∀ (L : Conv2DLayer) (a : Option (Nat × Tensor3)) (w1 w2 : Option W4),
      (Conv2D.deconvolve (Conv2D.deconvolve L a w1).2 none w2).1 =
        (Conv2D.deconvolve L none w2).1) ∧
    (∀ L0 : MPLayer, L0.output = (fun _ _ _ => 0) →
      ∀ (cs1 cs2 : List MPCall) (x : Tensor3),
        (MaxPool2D.feedforward (L0.runCalls cs1) L0.inC L0.inH L0.inW x).1 =
          (MaxPool2D.feedforward (L0.runCalls cs2) L0.inC L0.inH L0.inW
            x).1) ∧
    (∀ (L0 : MPLayer) (cs : List MPCall) (ys : List Tensor3) (x : Tensor3),
      (MaxPool2D.deconvolve (MPLayer.runCalls L0 (cs ++ ys.map MPCall.dec))
          L0.outC L0.outH L0.outW x).1 =
        (MaxPool2D.deconvolve (MPLayer.runCalls L0 cs)
          L0.outC L0.outH L0.outW x).1) ∧
    (∀ (L : DenseLayer) (o : Tensor2) (x : Tensor2),
      (Dense.feedforward { L with output := o } x).1 =
        (Dense.feedforward L x).1) ∧
    (∀ (L : FlattenLayer) (o : Tensor2) (xH xW : Nat) (x : Tensor3),
      (Flatten.feedforward { L with output := o } xH xW x).1 =
        (Flatten.feedforward L xH xW x).1) ∧
    (∀ (L : DropoutLayer) (o : Tensor3) (x : Tensor3),
      (Dropout.feedforward { L with output := o } x).1 =
        (Dropout.feedforward L x).1) ∧
    (∀ (L : BatchNormLayer) (o : RTensor3) (xC : Nat) (x : RTensor3)
        (i p q : Nat), i < xC →
      (BatchNorm.feedforward { L with output := o } xC x).1 i p q =
        (BatchNorm.feedforward L xC x).1 i p q) := by
  refine ⟨fun L o d xC xH xW x => rfl, fun L o d xc x0 wOpt => rfl,
    fun L a w1 w2 => rfl, ?_, ?_, fun L o x => rfl,
    fun L o xH xW x => rfl, fun L o x => rfl, ?_⟩
  · intro L0 h0 cs1 cs2 x
    obtain ⟨a1, a2, a3, -, -, -, a7, a8, a9, a10⟩ := mp_runCalls_params L0 cs1
    obtain ⟨b1, b2, b3, -, -, -, b7, b8, b9, b10⟩ := mp_runCalls_params L0 cs2
    have hdet := mp_ff_det (L0.runCalls cs1) (L0.runCalls cs2) x
      (a1.trans b1.symm) (a2.trans b2.symm) (a3.trans b3.symm)
      (a7.trans b7.symm) (a8.trans b8.symm) (a9.trans b9.symm)
      (a10.trans b10.symm)
      (mp_clean_runCalls L0 cs1 (mp_clean_init L0 h0))
      (mp_clean_runCalls L0 cs2 (mp_clean_init L0 h0))
    rw [a1, a2, a3, b1, b2, b3] at hdet
    exact hdet
  · intro L0 cs ys x
    induction ys generalizing cs with
    | nil => rw [List.map_nil, List.append_nil]
    | cons y ys ih =>
        have hstep : MPLayer.runCalls L0 (cs ++ (y :: ys).map MPCall.dec) =
            MPLayer.runCalls L0 ((cs ++ [MPCall.dec y]) ++ ys.map
              MPCall.dec) := by
          rw [List.map_cons, List.append_assoc]
          rfl
        rw [hstep, ih (cs ++ [MPCall.dec y])]
        have happ : MPLayer.runCalls L0 (cs ++ [MPCall.dec y]) =
            (MPLayer.runCalls L0 cs).applyCall (MPCall.dec y) := by
          rw [MPLayer.runCalls, MPLayer.runCalls, List.foldl_append]
          rfl
        rw [happ]
        obtain ⟨-, -, -, hoC, hoH2, hoW2, -, -, -, -⟩ :=
          mp_runCalls_params L0 cs
        show (MaxPool2D.deconvolve (MaxPool2D.deconvolve
            (MPLayer.runCalls L0 cs) (MPLayer.runCalls L0 cs).outC
            (MPLayer.runCalls L0 cs).outH (MPLayer.runCalls L0 cs).outW
            y).2 L0.outC L0.outH L0.outW x).1 = _
        rw [hoC, hoH2, hoW2]
        exact mp_dec_then_dec (MPLayer.runCalls L0 cs) y x L0.outC L0.outH
          L0.outW
  · intro L o xC x i p q hi
    rw [bn_ff_apply _ xC x i p q hi, bn_ff_apply _ xC x i p q hi]

/-- Witness for the amended C5: a freshly allocated MaxPooling2D layer gives
the same feedforward result whether or not a deconvolve happened first. -/
theorem layer_call_determinism_witness :
    (mpLayerB.output = fun _ _ _ => (0 : ℚ)) ∧
    (MaxPool2D.feedforward (mpLayerB.runCalls []) mpLayerB.inC mpLayerB.inH
        mpLayerB.inW xPeak).1 =
      (MaxPool2D.feedforward (mpLayerB.runCalls [MPCall.dec xFive])
        mpLayerB.inC mpLayerB.inH mpLayerB.inW xPeak).1 :=
  ⟨rfl, layer_call_determinism.2.2.2.1 mpLayerB rfl [] [MPCall.dec xFive]
    xPeak⟩

/-- C5 counterexample: two deconvolve calls on the same instance with the
same argument return different results when a feedforward call (which
rewrites `indices`) happens between them: the first returns 0 at (0, 1, 1),
the second returns 5 there. -/
theorem maxpool_deconvolve_nondeterminism :
    (MaxPool2D.deconvolve (MPLayer.runCalls mpLayerB [MPCall.ff yTopLeft])
        1 1 1 xFive).1 0 1 1 = 0 ∧
    (MaxPool2D.deconvolve (MPLayer.runCalls mpLayerB
        [MPCall.ff yTopLeft, MPCall.dec xFive, MPCall.ff yBotRight])
        1 1 1 xFive).1 0 1 1 = 5 ∧
    ((0 : ℚ) ≠ 5) := by
  have hpos : mpPositions 1 2 2 2 2 2 2 = [(0, 0, 0)] := by decide
  have htri : idxTriples 1 1 1 = [(0, 0, 0)] := by decide
  refine ⟨?_, ?_, by norm_num⟩ <;>
    norm_num [MPLayer.runCalls, MPLayer.applyCall, MaxPool2D.feedforward,
      MaxPool2D.deconvolve, hpos, htri, mpCell, mpDecCell, mpMaxVal,
      mpMaxIdx, mpWindowScan, argmaxScan, sliceLocs, writeSetG, mpLayerB,
      yTopLeft, yBotRight, xFive, List.range_succ]

/-- C9: BatchNormalization.feedforward computes, per channel `i`,
`g[i] * (x[i] - m[i]) / sqrt(v[i] + e) + b[i]` elementwise; with gamma 1,
beta 0, mean 0, variance 1 and epsilon 0 the output equals the input. -/
theorem batchnorm_feedforward_claim (L : BatchNormLayer) (xC : Nat)
    (x : RTensor3) :
    (∀ i p q, i < xC →
      (BatchNorm.feedforward L xC x).1 i p q =
        L.g i * (x i p q - L.m i) / Real.sqrt (L.v i + L.e) + L.b i) ∧
    ((∀ i, L.g i = 1) → (∀ i, L.b i = 0) → (∀ i, L.m i = 0) →
      (∀ i, L.v i = 1) → L.e = 0 →
      ∀ i p q, i < xC → (BatchNorm.feedforward L xC x).1 i p q = x i p q) := by
  constructor
  · exact fun i p q hi => bn_ff_apply L xC x i p q hi
  · intro hg hb hm hv he i p q hi
    rw [bn_ff_apply L xC x i p q hi, hg, hb, hm, hv, he]
    norm_num

/-- Witness for C9: the identity-configuration layer maps the all-ones
input to itself. -/
theorem batchnorm_feedforward_claim_witness :
    ((∀ i, bnLayerA.g i = 1) ∧ bnLayerA.e = 0 ∧ (0 : Nat) < 1) ∧
    (BatchNorm.feedforward bnLayerA 1 rOne3).1 0 0 0 = rOne3 0 0 0 :=
  ⟨⟨fun _ => rfl, rfl, by decide⟩,
    (batchnorm_feedforward_claim bnLayerA 1 rOne3).2 (fun _ => rfl)
      (fun _ => rfl) (fun _ => rfl) (fun _ => rfl) rfl 0 0 0 (by decide)⟩

/-- C6: the factory maps each supported description kind to its kernel and
category tag ('conv' for Conv2D, 'maxpool' for MaxPooling2D, 'other' for
Dense, Flatten, BatchNormalization and Dropout), produces no kernel and no
error for an input placeholder, and fails on any other type with an
unsupported-layer-kind error naming the offending type. -/
theorem layer_factory_claim :
    (∀ d : DenseDesc,
      Layer.factory (.dense d) = .ok (some (.dense (mkDense d), "other"))) ∧
    (∀ d : Conv2DDesc,
      Layer.factory (.conv2d d) =
        .ok (some (.conv2d (mkConv2D d), "conv"))) ∧
    (∀ d : MaxPool2DDesc,
      Layer.factory (.maxPooling2d d) =
        .ok (some (.maxPooling2d (mkMaxPool2D d), "maxpool"))) ∧
    (∀ d : FlattenDesc,
      Layer.factory (.flatten d) =
        .ok (some (.flatten (mkFlatten d), "other"))) ∧
    (∀ d : BatchNormDesc,
      Layer.factory (.batchNormalization d) =
        .ok (some (.batchNormalization (mkBatchNorm d), "other"))) ∧
    (∀ d : DropoutDesc,
      Layer.factory (.dropout d) =
        .ok (some (.dropout (mkDropout d), "other"))) ∧
    (∀ s : String, Layer.factory (.inputLayer s) = .ok none) ∧
    (∀ t : String,
      Layer.factory (.other t) = .error (.unsupportedLayerKind t)) :=
  ⟨fun _ => rfl, fun _ => rfl, fun _ => rfl, fun _ => rfl, fun _ => rfl,
    fun _ => rfl, fun _ => rfl, fun _ => rfl⟩

/-- C7: deconvolve is defined exactly for the Conv2D and MaxPooling2D
kernels — on them it returns a result — while on Dense, Flatten,
BatchNormalization and Dropout kernels it fails with an
unsupported-operation error naming the kind, performing no computation. -/
theorem kernel_deconvolve_claim :
    (∀ (L : DenseLayer) (xOpt : Option ((Nat × Nat × Nat) × Tensor3))
        (wOpt : Option W4),
      Kernel.deconvolve (.dense L) xOpt wOpt =
        .error (.unsupportedOperation "Dense")) ∧
    (∀ (L : FlattenLayer) (xOpt : Option ((Nat × Nat × Nat) × Tensor3))
        (wOpt : Option W4),
      Kernel.deconvolve (.flatten L) xOpt wOpt =
        .error (.unsupportedOperation "Flatten")) ∧
    (∀ (L : BatchNormLayer) (xOpt : Option ((Nat × Nat × Nat) × Tensor3))
        (wOpt : Option W4),
      Kernel.deconvolve (.batchNormalization L) xOpt wOpt =
        .error (.unsupportedOperation "BatchNormalization")) ∧
    (∀ (L : DropoutLayer) (xOpt : Option ((Nat × Nat × Nat) × Tensor3))
        (wOpt : Option W4),
      Kernel.deconvolve (.dropout L) xOpt wOpt =
        .error (.unsupportedOperation "Dropout")) ∧
    (∀ (L : Conv2DLayer) (xOpt : Option ((Nat × Nat × Nat) × Tensor3))
        (wOpt : Option W4),
      Kernel.deconvolve (.conv2d L) xOpt wOpt =
        .ok ((Conv2D.deconvolve L (xOpt.map fun s => (s.1.1, s.2)) wOpt).1,
          .conv2d (Conv2D.deconvolve L (xOpt.map fun s => (s.1.1, s.2))
            wOpt).2)) ∧
    (∀ (L : MPLayer) (shp : Nat × Nat × Nat) (x : Tensor3)
        (wOpt : Option W4),
      Kernel.deconvolve (.maxPooling2d L) (some (shp, x)) wOpt =
        .ok ((MaxPool2D.deconvolve L shp.1 shp.2.1 shp.2.2 x).1,
          .maxPooling2d (MaxPool2D.deconvolve L shp.1 shp.2.1 shp.2.2
            x).2)) :=
  ⟨fun _ _ _ => rfl, fun _ _ _ => rfl, fun _ _ _ => rfl, fun _ _ _ => rfl,
    fun _ _ _ => rfl, fun _ _ _ _ => rfl⟩
